import Mathlib

/-!
Shallow embedding of the MDM Apple configuration-profile reconciliation
datastore (`server/datastore/mysql/apple_mdm.go` of the fleet repository).

Tables are modelled as Lean lists of rows; each datastore method becomes a
pure function from a database state to a new database state (or an
`Except` when the method can fail).  SQL `NULL`able columns are `Option`s.
The `status` column of `host_mdm_apple_profiles` is nullable and is
modelled as `Option MDMAppleDeliveryStatus`; the `operation_type` column is
written by every code path with a concrete operation value (the data model
documents operation type ∈ \x7bInstall, Remove\x7d), so it is modelled as a
plain `MDMAppleOperationType`.
-/

namespace FleetMDM

/-- Delivery status of a host profile row (`fleet.MDMAppleDeliveryStatus`):
`pending`, `verifying` or `failed`.  The SQL `NULL` status ("newly queued,
not yet dispatched") is represented as `none : Option MDMAppleDeliveryStatus`. -/
inductive MDMAppleDeliveryStatus where
  | pending
  | verifying
  | failed
deriving DecidableEq, Repr

/-- Operation type of a host profile row (`fleet.MDMAppleOperationType`). -/
inductive MDMAppleOperationType where
  | install
  | remove
deriving DecidableEq, Repr

/-- Row of the `mdm_apple_configuration_profiles` table.  `teamID` uses the
team-0 sentinel for "no team", exactly as stored in that table. -/
structure Profile where
  profileID : Nat
  teamID : Nat
  identifier : String
  name : String
  mobileconfig : String
  checksum : Nat
deriving DecidableEq, Repr

/-- Row of the `hosts` table (the columns the reconciler reads).  The
`team_id` column of `hosts` is nullable: `none` means "no team". -/
structure Host where
  id : Nat
  uuid : String
  platform : String
  teamID : Option Nat
deriving DecidableEq, Repr

/-- Row of the `nano_enrollments` table (the columns the reconciler reads). -/
structure NanoEnrollment where
  deviceID : String
  enabled : Bool
  type : String
deriving DecidableEq, Repr

/-- Row of the `host_mdm_apple_profiles` table (the observed-state ledger).
Primary key: (`host_uuid`, `profile_id`). -/
structure HMAPRow where
  profileID : Nat
  hostUUID : String
  profileIdentifier : String
  profileName : String
  checksum : Nat
  operationType : MDMAppleOperationType
  status : Option MDMAppleDeliveryStatus
  commandUUID : String
  detail : String
deriving DecidableEq, Repr

/-- Row of the `host_disk_encryption_keys` table (the columns the
reconciler touches). -/
structure DiskEncryptionKey where
  hostID : Nat
  base64Encrypted : String
deriving DecidableEq, Repr

/-- Database state: the tables touched by the functions under
verification, plus the auto-increment counter of the profiles table. -/
structure DB where
  profiles : List Profile
  hosts : List Host
  nanoEnrollments : List NanoEnrollment
  hostProfiles : List HMAPRow
  diskKeys : List DiskEncryptionKey
  hostMDM : List Nat
  nextProfileID : Nat
deriving DecidableEq, Repr

/-- Key-uniqueness invariants enforced by the SQL schema: `profile_id` is
the primary key of `mdm_apple_configuration_profiles`, `uuid` uniquely
identifies rows of `hosts`, and (`host_uuid`, `profile_id`) is the primary
key of `host_mdm_apple_profiles`. -/
def DB.WF (db : DB) : Prop :=
  (db.profiles.map (·.profileID)).Nodup ∧
  (db.hosts.map (·.uuid)).Nodup ∧
  (db.hostProfiles.map (fun r => (r.hostUUID, r.profileID))).Nodup

instance (db : DB) : Decidable db.WF := by
  unfold DB.WF; infer_instance

/-- Checksum of a profile payload.  The source computes
`UNHEX(MD5(mobileconfig))`; the model only needs a fixed executable
function of the payload bytes. -/
def profileChecksum (s : String) : Nat :=
  s.toList.foldl (fun a c => a * 131 + c.toNat) 7

/-- Scope join used by every desired-state query:
`h.team_id = macp.team_id OR (h.team_id IS NULL AND macp.team_id = 0)`. -/
def hostScopeMatches (hostTeam : Option Nat) (profTeam : Nat) : Bool :=
  match hostTeam with
  | some t => t == profTeam
  | none => profTeam == 0

/-- Enrollment join used by every desired-state query:
`JOIN nano_enrollments ne ON ne.device_id = h.uuid` filtered by
`ne.enabled = 1 AND ne.type = 'Device'`. -/
def hostEnrolled (db : DB) (uuid : String) : Bool :=
  db.nanoEnrollments.any (fun e => e.deviceID == uuid && e.enabled && e.type == "Device")

/-- Unique-key lookup in `host_mdm_apple_profiles` by its primary key
(`host_uuid`, `profile_id`). -/
def lookupRow (rows : List HMAPRow) (uuid : String) (pid : Nat) : Option HMAPRow :=
  rows.find? (fun r => r.hostUUID == uuid && r.profileID == pid)

/-- Result row shape of the two differencer queries
(`fleet.MDMAppleProfilePayload`). -/
structure MDMAppleProfilePayload where
  profileID : Nat
  profileIdentifier : String
  profileName : String
  hostUUID : String
  checksum : Nat
deriving DecidableEq, Repr

/-- Desired-state pair (`ds` subquery of the differencer queries) as a
payload row. -/
def toInstallPayload (p : Profile) (h : Host) : MDMAppleProfilePayload :=
  { profileID := p.profileID
    profileIdentifier := p.identifier
    profileName := p.name
    hostUUID := h.uuid
    checksum := p.checksum }

/-- Membership of a (`host`, `profile`) pair in the desired state: the host
is in the profile's scope, runs `darwin`, and has an enabled `Device`
enrollment. -/
def desiredPair (db : DB) (p : Profile) (h : Host) : Bool :=
  hostScopeMatches h.teamID p.teamID && h.platform == "darwin" && hostEnrolled db h.uuid

/-- WHERE clause of `ListMDMAppleProfilesToInstall` applied to the left
join of a desired pair with its observed row:
checksum changed, no observed row, operation `remove`, or operation
`install` with `NULL` status. -/
def installCond (db : DB) (p : Profile) (h : Host) : Bool :=
  match lookupRow db.hostProfiles h.uuid p.profileID with
  | none => true
  | some r =>
      (!(r.checksum == p.checksum)) ||
      (r.operationType == MDMAppleOperationType.remove) ||
      (r.operationType == MDMAppleOperationType.install && r.status == none)

/-- `Datastore.ListMDMAppleProfilesToInstall`: the A − B set difference
between desired state (profiles × hosts × enrollments) and observed state
(`host_mdm_apple_profiles`). -/
def ListMDMAppleProfilesToInstall (db : DB) : List MDMAppleProfilePayload :=
  db.profiles.flatMap (fun p =>
    db.hosts.filterMap (fun h =>
      if desiredPair db p h && installCond db p h
      then some (toInstallPayload p h) else none))

/-- Existence of a desired pair matching an observed row's key, i.e. the
join condition `hmap.profile_id = ds.profile_id AND hmap.host_uuid = ds.uuid`
of the remove query. -/
def desiredHostProfile (db : DB) (uuid : String) (pid : Nat) : Bool :=
  db.profiles.any (fun p =>
    p.profileID == pid &&
    db.hosts.any (fun h => h.uuid == uuid && desiredPair db p h))

/-- WHERE clause of `ListMDMAppleProfilesToRemove`: observed row with no
matching desired pair, excluding `remove` rows with a non-`NULL` status. -/
def removeCond (db : DB) (r : HMAPRow) : Bool :=
  !(desiredHostProfile db r.hostUUID r.profileID) &&
  !(r.operationType == MDMAppleOperationType.remove && !(r.status == none))

/-- Payload columns selected from an observed row by the remove query. -/
def rowPayload (r : HMAPRow) : MDMAppleProfilePayload :=
  { profileID := r.profileID
    profileIdentifier := r.profileIdentifier
    profileName := r.profileName
    hostUUID := r.hostUUID
    checksum := r.checksum }

/-- `Datastore.ListMDMAppleProfilesToRemove`: the B − A set difference
between observed state and desired state. -/
def ListMDMAppleProfilesToRemove (db : DB) : List MDMAppleProfilePayload :=
  (db.hostProfiles.filter (removeCond db)).map rowPayload

/-- Input row of `BulkUpsertMDMAppleHostProfiles`
(`fleet.MDMAppleBulkUpsertHostProfilePayload`). -/
structure BulkUpsertHostProfilePayload where
  profileID : Nat
  profileIdentifier : String
  profileName : String
  hostUUID : String
  status : Option MDMAppleDeliveryStatus
  operationType : MDMAppleOperationType
  commandUUID : String
  checksum : Nat
deriving DecidableEq, Repr

/-- Key equality of an observed row against an upsert payload: the
`host_mdm_apple_profiles` primary key (`host_uuid`, `profile_id`). -/
def rowKeyMatches (r : HMAPRow) (p : BulkUpsertHostProfilePayload) : Bool :=
  r.hostUUID == p.hostUUID && r.profileID == p.profileID

/-- Fresh row inserted by `BulkUpsertMDMAppleHostProfiles` when no row with
the payload's key exists; `detail` takes the column default `''`. -/
def newRowOfPayload (p : BulkUpsertHostProfilePayload) : HMAPRow :=
  { profileID := p.profileID
    hostUUID := p.hostUUID
    profileIdentifier := p.profileIdentifier
    profileName := p.profileName
    checksum := p.checksum
    operationType := p.operationType
    status := p.status
    commandUUID := p.commandUUID
    detail := "" }

/-- One `VALUES` tuple of the `BulkUpsertMDMAppleHostProfiles` insert:
`ON DUPLICATE KEY UPDATE` sets `status`, `operation_type` and
`command_uuid` only — in particular the stored `checksum` of an existing
row is left unchanged. -/
def upsertHostProfileOne (rows : List HMAPRow) (p : BulkUpsertHostProfilePayload) :
    List HMAPRow :=
  if rows.any (fun r => rowKeyMatches r p) then
    rows.map (fun r =>
      if rowKeyMatches r p then
        { r with status := p.status, operationType := p.operationType,
                 commandUUID := p.commandUUID }
      else r)
  else rows ++ [newRowOfPayload p]

/-- `Datastore.BulkUpsertMDMAppleHostProfiles`: multi-row insert with
`ON DUPLICATE KEY UPDATE status, operation_type, command_uuid`. -/
def BulkUpsertMDMAppleHostProfiles (db : DB) (payload : List BulkUpsertHostProfilePayload) :
    DB :=
  if payload.isEmpty then db
  else { db with hostProfiles := payload.foldl upsertHostProfileOne db.hostProfiles }

/-- Argument of `UpdateOrDeleteHostMDMAppleProfile`
(`fleet.HostMDMAppleProfile`, the fields that function reads). -/
structure HostMDMAppleProfile where
  hostUUID : String
  commandUUID : String
  profileIdentifier : String
  status : Option MDMAppleDeliveryStatus
  operationType : MDMAppleOperationType
  detail : String
deriving DecidableEq, Repr

/-- Modelled from the spec: the classifier of device-reported errors that
are ignorable client errors — e.g. "profile not found on device", meaning
the profile is already gone.  The classifying method
(`fleet.HostMDMAppleProfile.IgnoreMDMClientError`) is not part of the
sources under verification; the spec describes it as an allowlist of
error details, modelled here as allowlist membership. -/
def ignorableClientErrors : List String :=
  ["profile not found on device"]

/-- Modelled from the spec: `HostMDMAppleProfile.IgnoreMDMClientError`
reports whether the device-reported detail is on the ignorable-client-error
allowlist. -/
def HostMDMAppleProfile.IgnoreMDMClientError (p : HostMDMAppleProfile) : Bool :=
  ignorableClientErrors.contains p.detail

/-- Condition under which `UpdateOrDeleteHostMDMAppleProfile` deletes the
row instead of updating it, exactly as written in the source: operation
`remove`, status non-`NULL`, and status `verifying` or an ignorable client
error. -/
def deleteHostProfileCond (p : HostMDMAppleProfile) : Bool :=
  p.operationType == MDMAppleOperationType.remove &&
  !(p.status == none) &&
  (p.status == some MDMAppleDeliveryStatus.verifying || p.IgnoreMDMClientError)

/-- `Datastore.UpdateOrDeleteHostMDMAppleProfile`: the Result Processor's
write path.  Deletes the rows keyed by (`host_uuid`, `command_uuid`) when
`deleteHostProfileCond` holds, otherwise updates their `status`,
`operation_type` and `detail` in place. -/
def UpdateOrDeleteHostMDMAppleProfile (db : DB) (p : HostMDMAppleProfile) : DB :=
  if deleteHostProfileCond p then
    { db with hostProfiles :=
        db.hostProfiles.filter (fun r =>
          !(r.hostUUID == p.hostUUID && r.commandUUID == p.commandUUID)) }
  else
    { db with hostProfiles :=
        db.hostProfiles.map (fun r =>
          if r.hostUUID == p.hostUUID && r.commandUUID == p.commandUUID then
            { r with status := p.status, operationType := p.operationType,
                     detail := p.detail }
          else r) }

/-- Modelled from the spec: the product-reserved payload identifiers
(`mobileconfig.FleetPayloadIdentifiers`, outside the sources under
verification) — the reserved set contains at least the disk-encryption
(FileVault) profile identifier and the fleetd configuration identifier. -/
def fleetPayloadIdentifiers : List String :=
  ["com.fleetdm.fleet.mdm.filevault", "com.fleetdm.fleetd.config"]

/-- Modelled from the spec: `mobileconfig.FleetFileVaultPayloadIdentifier`,
the reserved identifier of the product's disk-encryption profile. -/
def fleetFileVaultPayloadIdentifier : String :=
  "com.fleetdm.fleet.mdm.filevault"

/-- Errors surfaced by the datastore methods:
`alreadyExists` models `existsError` as built by
`formatErrorDuplicateConfigProfile` (the `resourceType` distinguishes the
violated unique index), `notFoundErr` models `notFound(...)`, `validation`
models a validation rejection, and `other` any remaining error string. -/
inductive DSError where
  | alreadyExists (resourceType : String) (identifier : String) (teamID : Option Nat)
  | notFoundErr (resourceType : String)
  | validation (msg : String)
  | other (msg : String)
deriving DecidableEq, Repr

/-- Incoming profile of `NewMDMAppleConfigProfile` and
`BatchSetMDMAppleProfiles` (`fleet.MDMAppleConfigProfile` as provided by
the caller: team, identifier, name and payload). -/
structure IncomingProfile where
  teamID : Option Nat
  identifier : String
  name : String
  mobileconfig : String
deriving DecidableEq, Repr

/-- `Datastore.NewMDMAppleConfigProfile`: single-row insert into
`mdm_apple_configuration_profiles` with checksum computed from the
payload.  The table carries two unique indexes —
`idx_mdm_apple_config_prof_team_identifier` on (`team_id`, `identifier`)
and `idx_mdm_apple_config_prof_team_name` on (`team_id`, `name`) — and a
duplicate on either surfaces as the corresponding `existsError`
(`formatErrorDuplicateConfigProfile`). -/
def NewMDMAppleConfigProfile (db : DB) (cp : IncomingProfile) :
    Except DSError (DB × Profile) :=
  let teamID := cp.teamID.getD 0
  if db.profiles.any (fun r => r.teamID == teamID && r.identifier == cp.identifier) then
    .error (.alreadyExists "MDMAppleConfigProfile.PayloadIdentifier" cp.identifier cp.teamID)
  else if db.profiles.any (fun r => r.teamID == teamID && r.name == cp.name) then
    .error (.alreadyExists "MDMAppleConfigProfile.PayloadDisplayName" cp.name cp.teamID)
  else
    let row : Profile :=
      { profileID := db.nextProfileID
        teamID := teamID
        identifier := cp.identifier
        name := cp.name
        mobileconfig := cp.mobileconfig
        checksum := profileChecksum cp.mobileconfig }
    .ok ({ db with profiles := db.profiles ++ [row], nextProfileID := db.nextProfileID + 1 },
         row)

/-- `Datastore.GetMDMAppleConfigProfile`: single-row select by
`profile_id`; `sql.ErrNoRows` becomes the `notFound` error. -/
def GetMDMAppleConfigProfile (db : DB) (profileID : Nat) : Except DSError Profile :=
  match db.profiles.find? (fun r => r.profileID == profileID) with
  | some r => .ok r
  | none => .error (.notFoundErr "MDMAppleConfigProfile")

/-- `Datastore.DeleteMDMAppleConfigProfile`: delete by `profile_id`;
reports `notFound` exactly when the number of deleted rows is not one. -/
def DeleteMDMAppleConfigProfile (db : DB) (profileID : Nat) : Except DSError DB :=
  let deleted := (db.profiles.filter (fun r => r.profileID == profileID)).length
  if deleted == 1 then
    .ok { db with profiles := db.profiles.filter (fun r => !(r.profileID == profileID)) }
  else .error (.notFoundErr "MDMAppleConfigProfile")

/-- `Datastore.DeleteMDMAppleConfigProfileByTeamAndIdentifier`: delete by
(`team_id`, `identifier`) with the `nil` team pointer defaulted to the
team-0 sentinel; reports `notFound` when zero rows were deleted. -/
def DeleteMDMAppleConfigProfileByTeamAndIdentifier (db : DB) (teamID : Option Nat)
    (profileIdentifier : String) : Except DSError DB :=
  let t := teamID.getD 0
  let deleted := (db.profiles.filter
    (fun r => r.teamID == t && r.identifier == profileIdentifier)).length
  if deleted == 0 then .error (.notFoundErr "MDMAppleConfigProfile")
  else
    .ok { db with profiles :=
            db.profiles.filter (fun r => !(r.teamID == t && r.identifier == profileIdentifier)) }

/-- Modelled from the spec: the service-layer `DeleteMDMAppleConfigProfile`
(outside the sources under verification; only its HTTP tests are present):
direct deletion of a profile bearing a product-reserved identifier is
rejected with a validation error before any store mutation. -/
def svcDeleteMDMAppleConfigProfile (db : DB) (profileID : Nat) : Except DSError DB :=
  match db.profiles.find? (fun r => r.profileID == profileID) with
  | none => .error (.notFoundErr "MDMAppleConfigProfile")
  | some r =>
      if fleetPayloadIdentifiers.contains r.identifier then
        .error (.validation "cannot delete Fleet-reserved profile")
      else DeleteMDMAppleConfigProfile db profileID

/-- Modelled from the spec: the service-layer deletion by team and
identifier rejects product-reserved identifiers with a validation error
before any store mutation. -/
def svcDeleteMDMAppleConfigProfileByTeamAndIdentifier (db : DB) (teamID : Option Nat)
    (profileIdentifier : String) : Except DSError DB :=
  if fleetPayloadIdentifiers.contains profileIdentifier then
    .error (.validation "cannot delete Fleet-reserved profile")
  else DeleteMDMAppleConfigProfileByTeamAndIdentifier db teamID profileIdentifier

/-- Deduplication of the incoming profiles by identifier, keeping for each
identifier its last occurrence — the contents of the Go map
`incomingProfs` over which `BatchSetMDMAppleProfiles` iterates. -/
def dedupByIdentifier : List IncomingProfile → List IncomingProfile
  | [] => []
  | q :: rest =>
      if rest.any (fun q2 => q2.identifier == q.identifier) then dedupByIdentifier rest
      else q :: dedupByIdentifier rest

/-- Column assignments of `insertNewOrEditedProfile`'s
`ON DUPLICATE KEY UPDATE`: `name`, `mobileconfig` and the checksum
recomputed from the new payload; the conflicting row keeps its
`profile_id`, `team_id` and `identifier`. -/
def batchUpdateRow (q : IncomingProfile) (r : Profile) : Profile :=
  { r with name := q.name, mobileconfig := q.mobileconfig,
           checksum := profileChecksum q.mobileconfig }

/-- Row inserted by `insertNewOrEditedProfile` when no unique key
conflicts. -/
def newProfileRow (t : Nat) (pid : Nat) (q : IncomingProfile) : Profile :=
  { profileID := pid
    teamID := t
    identifier := q.identifier
    name := q.name
    mobileconfig := q.mobileconfig
    checksum := profileChecksum q.mobileconfig }

/-- One execution of the `insertNewOrEditedProfile` statement of
`BatchSetMDMAppleProfiles`.  `mdm_apple_configuration_profiles` carries
two unique indexes — `idx_mdm_apple_config_prof_team_identifier` on
(`team_id`, `identifier`) and `idx_mdm_apple_config_prof_team_name` on
(`team_id`, `name`), both visible in `formatErrorDuplicateConfigProfile` —
and MySQL's `ON DUPLICATE KEY UPDATE` fires on either: a conflict on the
identifier key updates that row, otherwise a conflict on the name key
updates the name-matching row (which keeps its old identifier), otherwise
the row is inserted. -/
def batchUpsertProfileOne (t : Nat) (st : List Profile × Nat) (q : IncomingProfile) :
    List Profile × Nat :=
  if st.1.any (fun r => r.teamID == t && r.identifier == q.identifier) then
    (st.1.map (fun r =>
      if r.teamID == t && r.identifier == q.identifier then batchUpdateRow q r else r),
     st.2)
  else if st.1.any (fun r => r.teamID == t && r.name == q.name) then
    (st.1.map (fun r =>
      if r.teamID == t && r.name == q.name then batchUpdateRow q r else r),
     st.2)
  else
    (st.1 ++ [newProfileRow t st.2 q], st.2 + 1)

/-- Behaviour of `insertNewOrEditedProfile` in states where the name key
cannot fire on a row of a different identifier (every name-matching row
of the scope already matches on the identifier key): insert, or update
the identifier-matching row.  `batchUpsertProfileOne` coincides with this
under that condition (`batchStep_eq_of_inv`). -/
def batchUpsertIdentOnly (t : Nat) (st : List Profile × Nat) (q : IncomingProfile) :
    List Profile × Nat :=
  if st.1.any (fun r => r.teamID == t && r.identifier == q.identifier) then
    (st.1.map (fun r =>
      if r.teamID == t && r.identifier == q.identifier then batchUpdateRow q r else r),
     st.2)
  else
    (st.1 ++ [newProfileRow t st.2 q], st.2 + 1)

/-- Keep-set of `BatchSetMDMAppleProfiles`: identifiers of the scope's
existing profiles (loaded by matching the incoming identifiers) that are
also present among the incoming profiles. -/
def batchKeepIdents (db : DB) (t : Nat) (ps : List IncomingProfile) : List String :=
  (db.profiles.filter
    (fun r => r.teamID == t && (ps.map (·.identifier)).contains r.identifier)).filterMap
    (fun r => if ps.any (fun q => q.identifier == r.identifier)
              then some r.identifier else none)

/-- Deletion step of `BatchSetMDMAppleProfiles`: delete every profile of
the scope whose identifier is in neither the keep-set nor the
Fleet-reserved identifiers. -/
def batchAfterDelete (db : DB) (t : Nat) (ps : List IncomingProfile) : List Profile :=
  db.profiles.filter (fun r =>
    !(r.teamID == t &&
      !((batchKeepIdents db t ps ++ fleetPayloadIdentifiers).contains r.identifier)))

/-- `Datastore.BatchSetMDMAppleProfiles`: inside one retrying transaction
(`withRetryTxx`, modelled as a single atomic state transition), load the
scope's existing profiles whose identifier matches an incoming one,
compute the keep-set, delete every profile of the scope whose identifier
is in neither the keep-set nor the Fleet-reserved identifiers, then upsert
every incoming profile. -/
def BatchSetMDMAppleProfiles (db : DB) (tmID : Option Nat)
    (profiles : List IncomingProfile) : DB :=
  let profTeamID := tmID.getD 0
  let st := (dedupByIdentifier profiles).foldl (batchUpsertProfileOne profTeamID)
    (batchAfterDelete db profTeamID profiles, db.nextProfileID)
  { db with profiles := st.1, nextProfileID := st.2 }

/-- `Datastore.UpdateHostTablesOnMDMUnenroll`: one transaction that looks
up the host id by UUID (error when there is no such host), then deletes
the host's `host_mdm` rows, all its `host_mdm_apple_profiles` rows (via
`deleteMDMAppleProfilesForHost`) and its `host_disk_encryption_keys` row,
synchronously. -/
def UpdateHostTablesOnMDMUnenroll (db : DB) (uuid : String) : Except DSError DB :=
  match db.hosts.find? (fun h => h.uuid == uuid) with
  | none => .error (.other "getting host id from UUID")
  | some h =>
      .ok { db with
              hostMDM := db.hostMDM.filter (fun hid => !(hid == h.id)),
              hostProfiles := db.hostProfiles.filter (fun r => !(r.hostUUID == uuid)),
              diskKeys := db.diskKeys.filter (fun k => !(k.hostID == h.id)) }

/-- `getMDMAppleConfigProfileByTeamAndIdentifierDB` succeeds exactly when
the destination scope (with a `nil` team defaulted to the team-0
sentinel) has a profile with the given identifier. -/
def hasProfileByTeamAndIdentifier (db : DB) (teamID : Option Nat) (ident : String) : Bool :=
  db.profiles.any (fun r => r.teamID == teamID.getD 0 && r.identifier == ident)

/-- `bulkDeleteHostDiskEncryptionKeysDB`: deletes the
`host_disk_encryption_keys` rows of the given hosts (no-op on an empty
host list). -/
def bulkDeleteHostDiskEncryptionKeysDB (db : DB) (hostIDs : List Nat) : DB :=
  if hostIDs.isEmpty then db
  else { db with diskKeys := db.diskKeys.filter (fun k => !(hostIDs.contains k.hostID)) }

/-- `Datastore.CleanupDiskEncryptionKeysOnTeamChange`: within one
transaction, look up the destination scope's FileVault profile; when it is
not found, bulk-delete the disk-encryption keys of the transferred hosts,
otherwise leave the keys untouched. -/
def CleanupDiskEncryptionKeysOnTeamChange (db : DB) (hostIDs : List Nat)
    (newTeamID : Option Nat) : DB :=
  if hasProfileByTeamAndIdentifier db newTeamID fleetFileVaultPayloadIdentifier then db
  else bulkDeleteHostDiskEncryptionKeysDB db hostIDs

/-- WHERE clause of the install difference inside
`BulkSetPendingMDMAppleHostProfiles`: unlike
`ListMDMAppleProfilesToInstall` it has no clause for operation `install`
with `NULL` status. -/
def bspInstallCond (db : DB) (p : Profile) (h : Host) : Bool :=
  match lookupRow db.hostProfiles h.uuid p.profileID with
  | none => true
  | some r =>
      (!(r.checksum == p.checksum)) ||
      (r.operationType == MDMAppleOperationType.remove)

/-- Install difference of `BulkSetPendingMDMAppleHostProfiles`, restricted
to hosts whose UUID is in the selected set (`h.uuid IN (?)`). -/
def bspProfilesToInstall (db : DB) (uuids : List String) : List MDMAppleProfilePayload :=
  db.profiles.flatMap (fun p =>
    db.hosts.filterMap (fun h =>
      if uuids.contains h.uuid && desiredPair db p h && bspInstallCond db p h
      then some (toInstallPayload p h) else none))

/-- Desired-pair existence for the remove difference of
`BulkSetPendingMDMAppleHostProfiles`, with the desired set restricted to
the selected host UUIDs. -/
def bspDesiredHostProfile (db : DB) (uuids : List String) (uuid : String) (pid : Nat) :
    Bool :=
  db.profiles.any (fun p =>
    p.profileID == pid &&
    db.hosts.any (fun h => h.uuid == uuid && uuids.contains h.uuid && desiredPair db p h))

/-- Remove difference of `BulkSetPendingMDMAppleHostProfiles`: observed
rows of the selected hosts with no matching desired pair, excluding
`remove` operations in any state and excluding identifiers about to be
re-installed. -/
def bspProfilesToRemove (db : DB) (uuids : List String)
    (installIdentifiers : List String) : List MDMAppleProfilePayload :=
  (db.hostProfiles.filter (fun r =>
    uuids.contains r.hostUUID &&
    !(bspDesiredHostProfile db uuids r.hostUUID r.profileID) &&
    !(r.operationType == MDMAppleOperationType.remove) &&
    !(installIdentifiers.contains r.profileIdentifier))).map rowPayload

/-- One `VALUES` tuple of the insert at the end of
`BulkSetPendingMDMAppleHostProfiles`: this variant's
`ON DUPLICATE KEY UPDATE` also refreshes `checksum` and resets `detail`. -/
def bspUpsertOne (rows : List HMAPRow) (p : BulkUpsertHostProfilePayload) :
    List HMAPRow :=
  if rows.any (fun r => rowKeyMatches r p) then
    rows.map (fun r =>
      if rowKeyMatches r p then
        { r with status := p.status, operationType := p.operationType,
                 commandUUID := p.commandUUID, checksum := p.checksum, detail := "" }
      else r)
  else rows ++ [newRowOfPayload p]

/-- Upsert payload built by `BulkSetPendingMDMAppleHostProfiles` for a
difference row: the given operation type, `NULL` status and `NULL`
(modelled empty) command UUID. -/
def bspPayload (op : MDMAppleOperationType) (pl : MDMAppleProfilePayload) :
    BulkUpsertHostProfilePayload :=
  { profileID := pl.profileID
    profileIdentifier := pl.profileIdentifier
    profileName := pl.profileName
    hostUUID := pl.hostUUID
    status := none
    operationType := op
    commandUUID := ""
    checksum := pl.checksum }

/-- Host-UUID selection of `BulkSetPendingMDMAppleHostProfiles` when
exactly one selector is non-empty.  The `teamIDs` selector treats the
team-0 sentinel as "no team" (`team_id IS NULL`), adding the `NULL` match
to the `IN` list when `0` appears among other ids. -/
def bspSelectUUIDs (db : DB) (hostIDs teamIDs profileIDs : List Nat)
    (hostUUIDs : List String) : List String :=
  if !hostUUIDs.isEmpty then hostUUIDs
  else if !hostIDs.isEmpty then
    (db.hosts.filter (fun h => hostIDs.contains h.id)).map (·.uuid)
  else if !teamIDs.isEmpty then
    if teamIDs == [0] then
      (db.hosts.filter (fun h => h.teamID == none)).map (·.uuid)
    else if teamIDs.contains 0 then
      (db.hosts.filter (fun h =>
        match h.teamID with
        | some t => teamIDs.contains t
        | none => true)).map (·.uuid)
    else
      (db.hosts.filter (fun h =>
        match h.teamID with
        | some t => teamIDs.contains t
        | none => false)).map (·.uuid)
  else
    db.hosts.filterMap (fun h =>
      if db.profiles.any (fun p =>
           profileIDs.contains p.profileID && hostScopeMatches h.teamID p.teamID)
      then some h.uuid else none)

/-- `Datastore.BulkSetPendingMDMAppleHostProfiles`: within one
transaction, validate that at most one selector is provided, resolve the
selected host UUIDs, compute the install and remove differences for those
hosts, delete the rows whose (`host_uuid`, `profile_identifier`) will be
re-sent, and upsert the differences with `NULL` status. -/
def BulkSetPendingMDMAppleHostProfiles (db : DB) (hostIDs teamIDs profileIDs : List Nat)
    (hostUUIDs : List String) : Except String DB :=
  let countArgs := (if hostIDs.isEmpty then 0 else 1) + (if teamIDs.isEmpty then 0 else 1) +
    (if profileIDs.isEmpty then 0 else 1) + (if hostUUIDs.isEmpty then 0 else 1)
  if countArgs > 1 then
    .error "only one of hostIDs, teamIDs, profileIDs or hostUUIDs can be provided"
  else if countArgs == 0 then .ok db
  else
    let uuids := bspSelectUUIDs db hostIDs teamIDs profileIDs hostUUIDs
    if uuids.isEmpty then .ok db
    else
      let profilesToInstall := bspProfilesToInstall db uuids
      let installIdentifiers := profilesToInstall.map (·.profileIdentifier)
      let profilesToRemove := bspProfilesToRemove db uuids installIdentifiers
      if profilesToInstall.isEmpty && profilesToRemove.isEmpty then .ok db
      else
        let afterDelete := db.hostProfiles.filter (fun r =>
          !(profilesToInstall.any (fun pl =>
            pl.hostUUID == r.hostUUID && pl.profileIdentifier == r.profileIdentifier)))
        let payloads := profilesToInstall.map (bspPayload MDMAppleOperationType.install) ++
          profilesToRemove.map (bspPayload MDMAppleOperationType.remove)
        .ok { db with hostProfiles := payloads.foldl bspUpsertOne afterDelete }

/-- Upsert payload used when a reconciliation pass records a differencer
result row: status `Pending`, the given operation type and the payload's
checksum (for an install row this is the profile's current checksum). -/
def recordPayload (op : MDMAppleOperationType) (pl : MDMAppleProfilePayload) :
    BulkUpsertHostProfilePayload :=
  { profileID := pl.profileID
    profileIdentifier := pl.profileIdentifier
    profileName := pl.profileName
    hostUUID := pl.hostUUID
    status := some MDMAppleDeliveryStatus.pending
    operationType := op
    commandUUID := ""
    checksum := pl.checksum }

/-- Upsert payloads recorded by one store-level reconciliation pass: every
install candidate with status `Pending` and operation `Install`, every
remove candidate with status `Pending` and operation `Remove`. -/
def recordPayloads (db : DB) : List BulkUpsertHostProfilePayload :=
  (ListMDMAppleProfilesToInstall db).map (recordPayload MDMAppleOperationType.install) ++
  (ListMDMAppleProfilesToRemove db).map (recordPayload MDMAppleOperationType.remove)

/-- One store-level reconciliation pass as described by the idempotence
claim: record every install and remove candidate through
`BulkUpsertMDMAppleHostProfiles` with status `Pending`, the matching
operation type and the candidate row's checksum. -/
def recordPass (db : DB) : DB :=
  BulkUpsertMDMAppleHostProfiles db (recordPayloads db)

/-! ### General membership lemmas for the differencer queries -/

theorem mem_listToInstall_iff_raw (db : DB) (pl : MDMAppleProfilePayload) :
    pl ∈ ListMDMAppleProfilesToInstall db ↔
      ∃ p ∈ db.profiles, ∃ h ∈ db.hosts,
        (desiredPair db p h && installCond db p h) = true ∧ toInstallPayload p h = pl := by
  simp only [ListMDMAppleProfilesToInstall, List.mem_flatMap, List.mem_filterMap]
  constructor
  · rintro ⟨p, hp, h, hh, hph⟩
    split at hph
    · exact ⟨p, hp, h, hh, by assumption, Option.some_inj.mp hph⟩
    · exact absurd hph (by simp)
  · rintro ⟨p, hp, h, hh, hcond, hpl⟩
    exact ⟨p, hp, h, hh, by rw [if_pos hcond]; exact congrArg some hpl⟩

theorem mem_listToRemove_iff_raw (db : DB) (pl : MDMAppleProfilePayload) :
    pl ∈ ListMDMAppleProfilesToRemove db ↔
      ∃ r ∈ db.hostProfiles, removeCond db r = true ∧ rowPayload r = pl := by
  simp only [ListMDMAppleProfilesToRemove, List.mem_map, List.mem_filter]
  constructor
  · rintro ⟨r, ⟨hr, hc⟩, hpl⟩
    exact ⟨r, hr, hc, hpl⟩
  · rintro ⟨r, hr, hc, hpl⟩
    exact ⟨r, ⟨hr, hc⟩, hpl⟩

theorem profile_eq_of_wf {db : DB} (hwf : db.WF) {p p' : Profile}
    (hp : p ∈ db.profiles) (hp' : p' ∈ db.profiles)
    (hid : p.profileID = p'.profileID) : p = p' :=
  List.inj_on_of_nodup_map hwf.1 hp hp' hid

theorem host_eq_of_wf {db : DB} (hwf : db.WF) {h h' : Host}
    (hh : h ∈ db.hosts) (hh' : h' ∈ db.hosts)
    (hu : h.uuid = h'.uuid) : h = h' :=
  List.inj_on_of_nodup_map hwf.2.1 hh hh' hu

theorem hmap_eq_of_wf {db : DB} (hwf : db.WF) {r r' : HMAPRow}
    (hr : r ∈ db.hostProfiles) (hr' : r' ∈ db.hostProfiles)
    (hk : r.hostUUID = r'.hostUUID) (hk2 : r.profileID = r'.profileID) : r = r' :=
  List.inj_on_of_nodup_map hwf.2.2 hr hr' (by rw [hk, hk2])

/-- Prop-level reading of `installCond`'s disjunction, phrased as the four
cases of the specification. -/
theorem installCond_iff (db : DB) (p : Profile) (h : Host) :
    installCond db p h = true ↔
      (lookupRow db.hostProfiles h.uuid p.profileID = none ∨
       ∃ r, lookupRow db.hostProfiles h.uuid p.profileID = some r ∧
         (r.checksum ≠ p.checksum ∨ r.operationType = MDMAppleOperationType.remove ∨
          (r.operationType = MDMAppleOperationType.install ∧ r.status = none))) := by
  unfold installCond
  cases hl : lookupRow db.hostProfiles h.uuid p.profileID with
  | none => simp
  | some r =>
      constructor
      · intro hc
        refine Or.inr ⟨r, rfl, ?_⟩
        simp only [Bool.or_eq_true, Bool.and_eq_true, beq_iff_eq, Bool.not_eq_true',
          beq_eq_false_iff_ne] at hc
        exact hc.elim (fun a => a.elim Or.inl (Or.inr ∘ Or.inl)) (Or.inr ∘ Or.inr)
      · rintro (hnone | ⟨r', hr', hc⟩)
        · exact absurd hnone (by simp)
        · obtain rfl : r' = r := by injection hr' with e; exact e.symm
          simp only [Bool.or_eq_true, Bool.and_eq_true, beq_iff_eq, Bool.not_eq_true',
            beq_eq_false_iff_ne]
          exact hc.elim (Or.inl ∘ Or.inl) (fun a => a.elim (Or.inl ∘ Or.inr) Or.inr)

end FleetMDM

namespace FleetMDM

theorem desiredHostProfile_iff (db : DB) (uuid : String) (pid : Nat) :
    desiredHostProfile db uuid pid = true ↔
      ∃ p ∈ db.profiles, p.profileID = pid ∧
        ∃ h ∈ db.hosts, h.uuid = uuid ∧ desiredPair db p h = true := by
  unfold desiredHostProfile
  simp only [List.any_eq_true, Bool.and_eq_true, beq_iff_eq]

/-- C1: `ListMDMAppleProfilesToInstall` returns the pair (h, p) if and
only if p is in h's current scope (h's team, or the team-0 sentinel
matching hosts with no team), h is a darwin host with an enabled
Device-type MDM enrollment, and either (a) no status row exists for
(h, p), or (b) the row's checksum differs from p's current checksum, or
(c) the row's operation is Remove regardless of status, or (d) the row's
operation is Install with NULL status; consequently a pair whose row has
operation Install, a non-NULL status and an unchanged checksum is never
returned. -/
theorem C1_listProfilesToInstall_iff (db : DB) (p : Profile) (h : Host)
    (hwf : db.WF) (hp : p ∈ db.profiles) (hh : h ∈ db.hosts) :
    toInstallPayload p h ∈ ListMDMAppleProfilesToInstall db ↔
      (hostScopeMatches h.teamID p.teamID = true ∧ h.platform = "darwin" ∧
       hostEnrolled db h.uuid = true ∧
       (lookupRow db.hostProfiles h.uuid p.profileID = none ∨
        ∃ r, lookupRow db.hostProfiles h.uuid p.profileID = some r ∧
          (r.checksum ≠ p.checksum ∨ r.operationType = MDMAppleOperationType.remove ∨
           (r.operationType = MDMAppleOperationType.install ∧ r.status = none)))) := by
  rw [mem_listToInstall_iff_raw]
  constructor
  · rintro ⟨p', hp', h', hh', hcond, heq⟩
    have hpid : p'.profileID = p.profileID := congrArg MDMAppleProfilePayload.profileID heq
    have huuid : h'.uuid = h.uuid := congrArg MDMAppleProfilePayload.hostUUID heq
    obtain rfl := profile_eq_of_wf hwf hp' hp hpid
    obtain rfl := host_eq_of_wf hwf hh' hh huuid
    simp only [Bool.and_eq_true] at hcond
    obtain ⟨hd, hic⟩ := hcond
    unfold desiredPair at hd
    simp only [Bool.and_eq_true, beq_iff_eq] at hd
    exact ⟨hd.1.1, hd.1.2, hd.2, (installCond_iff _ _ _).mp hic⟩
  · rintro ⟨hs, hplat, henr, hcase⟩
    refine ⟨p, hp, h, hh, ?_, rfl⟩
    have hic := (installCond_iff db p h).mpr hcase
    unfold desiredPair
    simp [hs, hplat, henr, hic]

/-- Sample state: one no-team profile, one enrolled darwin host with no
team, and an empty observed-state ledger. -/
def sampleProfile : Profile :=
  { profileID := 1, teamID := 0, identifier := "I1", name := "N1",
    mobileconfig := "mc1", checksum := 11 }

def sampleHost : Host :=
  { id := 1, uuid := "h1", platform := "darwin", teamID := none }

def sampleEnrollment : NanoEnrollment :=
  { deviceID := "h1", enabled := true, type := "Device" }

def sampleDB : DB :=
  { profiles := [sampleProfile], hosts := [sampleHost],
    nanoEnrollments := [sampleEnrollment], hostProfiles := [],
    diskKeys := [], hostMDM := [], nextProfileID := 2 }

theorem C1_witness :
    toInstallPayload sampleProfile sampleHost ∈ ListMDMAppleProfilesToInstall sampleDB :=
  (C1_listProfilesToInstall_iff sampleDB sampleProfile sampleHost (by decide) (by decide)
    (by decide)).mpr ⟨by decide, by decide, by decide, Or.inl (by decide)⟩

/-- C2: `ListMDMAppleProfilesToRemove` returns exactly the observed rows
whose (host, profile) key matches no desired pair (a profile of the
host's current scope with the host an enrolled darwin device), excluding
rows whose operation is already Remove with a non-NULL status; a Remove
row whose status is still NULL is returned again. -/
theorem C2_listProfilesToRemove_iff (db : DB) (r : HMAPRow)
    (hwf : db.WF) (hr : r ∈ db.hostProfiles) :
    rowPayload r ∈ ListMDMAppleProfilesToRemove db ↔
      (¬(∃ p ∈ db.profiles, p.profileID = r.profileID ∧
          ∃ h ∈ db.hosts, h.uuid = r.hostUUID ∧ desiredPair db p h = true) ∧
       ¬(r.operationType = MDMAppleOperationType.remove ∧ r.status ≠ none)) := by
  rw [mem_listToRemove_iff_raw]
  constructor
  · rintro ⟨r', hr', hc, heq⟩
    have hu : r'.hostUUID = r.hostUUID := congrArg MDMAppleProfilePayload.hostUUID heq
    have hpid : r'.profileID = r.profileID := congrArg MDMAppleProfilePayload.profileID heq
    obtain rfl := hmap_eq_of_wf hwf hr' hr hu hpid
    unfold removeCond at hc
    simp only [Bool.and_eq_true, Bool.not_eq_true', Bool.and_eq_false_iff,
      beq_iff_eq, beq_eq_false_iff_ne, Bool.not_eq_false'] at hc
    refine ⟨fun hdes => ?_, ?_⟩
    · rw [(desiredHostProfile_iff _ _ _).mpr hdes] at hc
      exact absurd hc.1 (by simp)
    · rcases hc.2 with h1 | h2
      · exact fun hand => h1 hand.1
      · exact fun hand => hand.2 (by simpa using h2)
  · rintro ⟨hnd, hop⟩
    refine ⟨r, hr, ?_, rfl⟩
    unfold removeCond
    have hd : desiredHostProfile db r.hostUUID r.profileID = false := by
      rcases hb : desiredHostProfile db r.hostUUID r.profileID with _ | _
      · rfl
      · exact absurd ((desiredHostProfile_iff db r.hostUUID r.profileID).mp hb) hnd
    rw [hd]
    simp only [Bool.not_false, Bool.true_and, Bool.not_eq_true', Bool.and_eq_false_iff,
      beq_eq_false_iff_ne, Bool.not_eq_false']
    by_cases h1 : r.operationType = MDMAppleOperationType.remove
    · right
      have := fun hs => hop ⟨h1, hs⟩
      simpa using not_not.mp (fun hne => (this (by simpa using hne)))
    · left; simpa using h1

end FleetMDM

namespace FleetMDM

/-- Sample observed row whose profile is not part of any desired pair. -/
def sampleStaleRow : HMAPRow :=
  { profileID := 9, hostUUID := "h1", profileIdentifier := "I9", profileName := "N9",
    checksum := 99, operationType := MDMAppleOperationType.install,
    status := some MDMAppleDeliveryStatus.verifying, commandUUID := "c9", detail := "" }

def sampleDB2 : DB :=
  { sampleDB with hostProfiles := [sampleStaleRow] }

theorem C2_witness :
    rowPayload sampleStaleRow ∈ ListMDMAppleProfilesToRemove sampleDB2 :=
  (C2_listProfilesToRemove_iff sampleDB2 sampleStaleRow (by decide) (by decide)).mpr
    ⟨by decide, by decide⟩

/-- Prop-level reading of the delete condition of
`UpdateOrDeleteHostMDMAppleProfile`. -/
theorem deleteHostProfileCond_iff (p : HostMDMAppleProfile) :
    deleteHostProfileCond p = true ↔
      (p.operationType = MDMAppleOperationType.remove ∧ p.status ≠ none ∧
       (p.status = some MDMAppleDeliveryStatus.verifying ∨ p.IgnoreMDMClientError = true)) := by
  unfold deleteHostProfileCond
  simp only [Bool.and_eq_true, Bool.or_eq_true, beq_iff_eq, Bool.not_eq_true',
    beq_eq_false_iff_ne, ne_eq]
  tauto

/-- C5 (amended): `UpdateOrDeleteHostMDMAppleProfile` deletes the rows
keyed by (HostUUID, CommandUUID) if and only if the reported operation is
Remove AND the reported status is non-NULL AND (the status is Verifying or
the reported error is an ignorable client error); in every other case it
updates the row's status, operation type and detail in place and the row
persists.  (The source requires `Status != nil` even on the
ignorable-error branch, which the original claim omitted.) -/
theorem C5_updateOrDeleteHostProfile_iff (db : DB) (p : HostMDMAppleProfile)
    (hex : ∃ r ∈ db.hostProfiles, r.hostUUID = p.hostUUID ∧ r.commandUUID = p.commandUUID) :
    ((∀ r' ∈ (UpdateOrDeleteHostMDMAppleProfile db p).hostProfiles,
        ¬(r'.hostUUID = p.hostUUID ∧ r'.commandUUID = p.commandUUID)) ↔
      (p.operationType = MDMAppleOperationType.remove ∧ p.status ≠ none ∧
       (p.status = some MDMAppleDeliveryStatus.verifying ∨ p.IgnoreMDMClientError = true))) ∧
    (¬(p.operationType = MDMAppleOperationType.remove ∧ p.status ≠ none ∧
       (p.status = some MDMAppleDeliveryStatus.verifying ∨ p.IgnoreMDMClientError = true)) →
      ∀ r' ∈ (UpdateOrDeleteHostMDMAppleProfile db p).hostProfiles,
        r'.hostUUID = p.hostUUID → r'.commandUUID = p.commandUUID →
          (r'.status = p.status ∧ r'.operationType = p.operationType ∧
           r'.detail = p.detail)) := by
  unfold UpdateOrDeleteHostMDMAppleProfile
  by_cases hc : deleteHostProfileCond p = true
  · rw [if_pos hc]
    rw [deleteHostProfileCond_iff] at hc
    constructor
    · refine iff_of_true ?_ hc
      intro r' hr' hkey
      have := (List.mem_filter.mp hr').2
      simp only [Bool.not_eq_true', Bool.and_eq_false_iff, beq_eq_false_iff_ne] at this
      rcases this with h1 | h2
      · exact h1 hkey.1
      · exact h2 hkey.2
    · intro hnc
      exact absurd hc hnc
  · rw [if_neg hc]
    have hcp : ¬(p.operationType = MDMAppleOperationType.remove ∧ p.status ≠ none ∧
        (p.status = some MDMAppleDeliveryStatus.verifying ∨ p.IgnoreMDMClientError = true)) :=
      fun hprop => hc ((deleteHostProfileCond_iff p).mpr hprop)
    constructor
    · constructor
      · intro hall
        obtain ⟨r, hr, hkey⟩ := hex
        have hmem : (if r.hostUUID == p.hostUUID && r.commandUUID == p.commandUUID then
            { r with status := p.status, operationType := p.operationType,
                     detail := p.detail } else r) ∈
            db.hostProfiles.map (fun r0 =>
              if r0.hostUUID == p.hostUUID && r0.commandUUID == p.commandUUID then
                { r0 with status := p.status, operationType := p.operationType,
                          detail := p.detail } else r0) :=
          List.mem_map_of_mem _ hr
        rw [if_pos (by simp [hkey.1, hkey.2])] at hmem
        exact absurd ⟨hkey.1, hkey.2⟩ (hall _ hmem)
      · intro hprop
        exact absurd hprop hcp
    · intro _ r' hr' hu hcu
      obtain ⟨r0, hr0, heq⟩ := List.mem_map.mp hr'
      by_cases hk : (r0.hostUUID == p.hostUUID && r0.commandUUID == p.commandUUID) = true
      · rw [if_pos hk] at heq
        rw [← heq]
        exact ⟨rfl, rfl, rfl⟩
      · rw [if_neg hk] at heq
        subst heq
        simp only [Bool.and_eq_true, beq_iff_eq] at hk
        exact absurd ⟨hu, hcu⟩ hk

/-- Reported result used by the C5 counterexample: operation Remove,
status still NULL, error on the ignorable allowlist. -/
def c5Profile : HostMDMAppleProfile :=
  { hostUUID := "h1", commandUUID := "c1", profileIdentifier := "I1",
    status := none, operationType := MDMAppleOperationType.remove,
    detail := "profile not found on device" }

/-- Observed row matched by `c5Profile`'s (HostUUID, CommandUUID) key. -/
def c5Row : HMAPRow :=
  { profileID := 1, hostUUID := "h1", profileIdentifier := "I1", profileName := "N1",
    checksum := 11, operationType := MDMAppleOperationType.remove, status := none,
    commandUUID := "c1", detail := "" }

def c5DB : DB :=
  { sampleDB with hostProfiles := [c5Row] }

/-- C5 counterexample: the reported result has operation Remove and an
ignorable client error, so the claim as stated demands deletion, yet the
source keeps (updates) the row because its status is NULL. -/
theorem C5_counterexample :
    c5Profile.operationType = MDMAppleOperationType.remove ∧
    c5Profile.IgnoreMDMClientError = true ∧
    (UpdateOrDeleteHostMDMAppleProfile c5DB c5Profile).hostProfiles.any
      (fun r => r.hostUUID == c5Profile.hostUUID &&
        r.commandUUID == c5Profile.commandUUID) = true := by decide

/-- Reported result exercising the delete branch for the C5 witness. -/
def c5DelProfile : HostMDMAppleProfile :=
  { hostUUID := "h1", commandUUID := "c1", profileIdentifier := "I1",
    status := some MDMAppleDeliveryStatus.verifying,
    operationType := MDMAppleOperationType.remove, detail := "" }

theorem C5_witness :
    (∃ r ∈ c5DB.hostProfiles,
      r.hostUUID = c5DelProfile.hostUUID ∧ r.commandUUID = c5DelProfile.commandUUID) ∧
    ((∀ r' ∈ (UpdateOrDeleteHostMDMAppleProfile c5DB c5DelProfile).hostProfiles,
        ¬(r'.hostUUID = c5DelProfile.hostUUID ∧ r'.commandUUID = c5DelProfile.commandUUID)) ↔
      (c5DelProfile.operationType = MDMAppleOperationType.remove ∧
       c5DelProfile.status ≠ none ∧
       (c5DelProfile.status = some MDMAppleDeliveryStatus.verifying ∨
        c5DelProfile.IgnoreMDMClientError = true))) :=
  ⟨by decide,
   (C5_updateOrDeleteHostProfile_iff c5DB c5DelProfile (by decide)).1⟩

end FleetMDM

namespace FleetMDM

/-- C6: after `UpdateHostTablesOnMDMUnenroll` succeeds for a host UUID, no
`host_mdm_apple_profiles` row with that UUID remains, and no
`host_disk_encryption_keys` row for the looked-up host remains; the
deletions are performed synchronously inside the single transaction
modelled by this one state transition. -/
theorem C6_unenroll_deletes_rows (db : DB) (uuid : String) (db' : DB)
    (hok : UpdateHostTablesOnMDMUnenroll db uuid = .ok db') :
    (∀ r ∈ db'.hostProfiles, r.hostUUID ≠ uuid) ∧
    (∀ h, db.hosts.find? (fun h0 => h0.uuid == uuid) = some h →
      ∀ k ∈ db'.diskKeys, k.hostID ≠ h.id) := by
  unfold UpdateHostTablesOnMDMUnenroll at hok
  cases hfind : db.hosts.find? (fun h0 => h0.uuid == uuid) with
  | none =>
      rw [hfind] at hok
      exact absurd hok (by simp)
  | some h0 =>
      rw [hfind] at hok
      have hdb : db' = { db with
          hostMDM := db.hostMDM.filter (fun hid => !(hid == h0.id)),
          hostProfiles := db.hostProfiles.filter (fun r => !(r.hostUUID == uuid)),
          diskKeys := db.diskKeys.filter (fun k => !(k.hostID == h0.id)) } := by
        cases hok
        rfl
      subst hdb
      constructor
      · intro r hr
        have := (List.mem_filter.mp hr).2
        simpa using this
      · intro h hh k hk
        have heq : h = h0 := (Option.some_inj.mp hh).symm
        subst heq
        have := (List.mem_filter.mp hk).2
        simpa using this

/-- Host and key rows for the C6 witness. -/
def c6DB : DB :=
  { sampleDB with
      hostProfiles := [c5Row],
      diskKeys := [{ hostID := 1, base64Encrypted := "k1" }],
      hostMDM := [1] }

/-- Result state of unenrolling `sampleHost` from `c6DB`. -/
def c6DBAfter : DB :=
  { c6DB with hostMDM := [], hostProfiles := [], diskKeys := [] }

theorem C6_witness :
    UpdateHostTablesOnMDMUnenroll c6DB "h1" = .ok c6DBAfter ∧
    (∀ r ∈ c6DBAfter.hostProfiles, r.hostUUID ≠ "h1") :=
  ⟨by rfl, (C6_unenroll_deletes_rows c6DB "h1" c6DBAfter (by rfl)).1⟩

/-- C7: `CleanupDiskEncryptionKeysOnTeamChange` deletes the stored
disk-encryption key of every transferred host exactly when the
destination scope has no profile with the reserved FileVault identifier;
when such a profile exists every key row is left unchanged. -/
theorem C7_cleanupDiskEncryptionKeys_iff (db : DB) (hostIDs : List Nat)
    (newTeamID : Option Nat) (k : DiskEncryptionKey) (hk : k ∈ db.diskKeys) :
    (k.hostID ∈ hostIDs →
      (k ∈ (CleanupDiskEncryptionKeysOnTeamChange db hostIDs newTeamID).diskKeys ↔
        hasProfileByTeamAndIdentifier db newTeamID fleetFileVaultPayloadIdentifier = true)) ∧
    (k.hostID ∉ hostIDs →
      k ∈ (CleanupDiskEncryptionKeysOnTeamChange db hostIDs newTeamID).diskKeys) := by
  unfold CleanupDiskEncryptionKeysOnTeamChange bulkDeleteHostDiskEncryptionKeysDB
  by_cases hfv : hasProfileByTeamAndIdentifier db newTeamID fleetFileVaultPayloadIdentifier = true
  · rw [if_pos hfv]
    exact ⟨fun _ => iff_of_true hk hfv, fun _ => hk⟩
  · rw [if_neg hfv]
    by_cases hemp : hostIDs.isEmpty = true
    · rw [if_pos hemp]
      have : hostIDs = [] := List.isEmpty_iff.mp hemp
      subst this
      exact ⟨fun hmem => absurd hmem (List.not_mem_nil _), fun _ => hk⟩
    · rw [if_neg hemp]
      constructor
      · intro hmem
        refine iff_of_false ?_ hfv
        intro hin
        have := (List.mem_filter.mp hin).2
        simp only [Bool.not_eq_true'] at this
        rw [Bool.eq_false_iff] at this
        exact this (List.elem_iff.mpr hmem)
      · intro hnmem
        refine List.mem_filter.mpr ⟨hk, ?_⟩
        simp only [Bool.not_eq_true']
        rw [Bool.eq_false_iff]
        exact fun hcontra => hnmem (List.elem_iff.mp hcontra)

theorem C7_witness :
    (({ hostID := 1, base64Encrypted := "k1" } : DiskEncryptionKey) ∈
        (CleanupDiskEncryptionKeysOnTeamChange c6DB [1] none).diskKeys ↔
      hasProfileByTeamAndIdentifier c6DB none fleetFileVaultPayloadIdentifier = true) :=
  (C7_cleanupDiskEncryptionKeys_iff c6DB [1] none
    { hostID := 1, base64Encrypted := "k1" } (by decide)).1 (by decide)

end FleetMDM

namespace FleetMDM

/-- Discriminator for the distinguishable "already exists" error of
profile creation. -/
def isAlreadyExistsErr (e : Except DSError (DB × Profile)) : Bool :=
  match e with
  | .error (.alreadyExists _ _ _) => true
  | _ => false

/-- Discriminator for the "not found" error. -/
def isNotFoundRes {α : Type} (e : Except DSError α) : Bool :=
  match e with
  | .error (.notFoundErr _) => true
  | _ => false

theorem length_filter_le_one_of_nodup_map {α β : Type} [BEq β] [LawfulBEq β]
    (f : α → β) (l : List α) (hn : (l.map f).Nodup) (c : β) :
    (l.filter (fun x => f x == c)).length ≤ 1 := by
  induction l with
  | nil => simp
  | cons a t ih =>
      simp only [List.map_cons, List.nodup_cons] at hn
      by_cases hfa : (f a == c) = true
      · have ht : t.filter (fun x => f x == c) = [] := by
          rw [List.filter_eq_nil_iff]
          intro x hx hfx
          rw [beq_iff_eq] at hfa hfx
          exact hn.1 (by rw [hfa, ← hfx]; exact List.mem_map_of_mem f hx)
        simp [List.filter_cons, hfa, ht]
      · simp only [List.filter_cons, hfa, if_false]
        exact ih hn.2

/-- C9 (amended): profile creation returns the distinguishable "already
exists" error exactly when the scope already has a profile with the same
identifier or the same name (the table carries unique indexes on both
(team, identifier) and (team, name)); get and delete by ID return "not
found" exactly when no profile with that ID exists, and delete succeeds
(reporting not-found precisely when zero rows were deleted) with exactly
the rows of that ID removed. -/
theorem C9_profile_crud_errors (db : DB) (cp : IncomingProfile) (pid : Nat)
    (hwf : db.WF) :
    (isAlreadyExistsErr (NewMDMAppleConfigProfile db cp) = true ↔
      ∃ r ∈ db.profiles, r.teamID = cp.teamID.getD 0 ∧
        (r.identifier = cp.identifier ∨ r.name = cp.name)) ∧
    (isNotFoundRes (GetMDMAppleConfigProfile db pid) = true ↔
      ¬∃ r ∈ db.profiles, r.profileID = pid) ∧
    (isNotFoundRes (DeleteMDMAppleConfigProfile db pid) = true ↔
      ¬∃ r ∈ db.profiles, r.profileID = pid) ∧
    ((∃ r ∈ db.profiles, r.profileID = pid) →
      DeleteMDMAppleConfigProfile db pid =
        .ok { db with profiles := db.profiles.filter (fun r => !(r.profileID == pid)) }) := by
  refine ⟨?_, ?_, ?_, ?_⟩
  · unfold NewMDMAppleConfigProfile isAlreadyExistsErr
    by_cases hid : (db.profiles.any
        (fun r => r.teamID == cp.teamID.getD 0 && r.identifier == cp.identifier)) = true
    · rw [if_pos hid]
      refine iff_of_true rfl ?_
      simp only [List.any_eq_true, Bool.and_eq_true, beq_iff_eq] at hid
      obtain ⟨r, hr, ht, hi⟩ := hid
      exact ⟨r, hr, ht, Or.inl hi⟩
    · rw [if_neg hid]
      by_cases hnm : (db.profiles.any
          (fun r => r.teamID == cp.teamID.getD 0 && r.name == cp.name)) = true
      · rw [if_pos hnm]
        refine iff_of_true rfl ?_
        simp only [List.any_eq_true, Bool.and_eq_true, beq_iff_eq] at hnm
        obtain ⟨r, hr, ht, hn⟩ := hnm
        exact ⟨r, hr, ht, Or.inr hn⟩
      · rw [if_neg hnm]
        refine iff_of_false (by simp) ?_
        rintro ⟨r, hr, ht, hcase | hcase⟩
        · exact hid (List.any_eq_true.mpr ⟨r, hr, by simp [ht, hcase]⟩)
        · exact hnm (List.any_eq_true.mpr ⟨r, hr, by simp [ht, hcase]⟩)
  · unfold GetMDMAppleConfigProfile isNotFoundRes
    cases hf : db.profiles.find? (fun r => r.profileID == pid) with
    | none =>
        refine iff_of_true rfl ?_
        rw [List.find?_eq_none] at hf
        rintro ⟨r, hr, hrid⟩
        exact hf r hr (by simp [hrid])
    | some r =>
        refine iff_of_false (by simp) ?_
        have hmem := List.mem_of_find?_eq_some hf
        have hpid := List.find?_some hf
        rw [beq_iff_eq] at hpid
        exact fun hno => hno ⟨r, hmem, hpid⟩
  · unfold DeleteMDMAppleConfigProfile isNotFoundRes
    by_cases hex : ∃ r ∈ db.profiles, r.profileID = pid
    · have hlen1 : (db.profiles.filter (fun r => r.profileID == pid)).length = 1 := by
        obtain ⟨r, hr, hrid⟩ := hex
        have hle := length_filter_le_one_of_nodup_map (·.profileID) db.profiles hwf.1 pid
        have hge : 0 < (db.profiles.filter (fun r => r.profileID == pid)).length := by
          refine List.length_pos.mpr (List.ne_nil_of_mem (List.mem_filter.mpr ⟨hr, ?_⟩))
          simp [hrid]
        omega
      rw [hlen1]
      exact iff_of_false (by simp) (fun hno => hno hex)
    · have hlen0 : (db.profiles.filter (fun r => r.profileID == pid)).length = 0 := by
        rw [List.length_eq_zero, List.filter_eq_nil_iff]
        intro r hr hrid
        exact hex ⟨r, hr, by simpa using hrid⟩
      rw [hlen0]
      exact iff_of_true rfl (fun hcontra => hex hcontra)
  · intro hex
    unfold DeleteMDMAppleConfigProfile
    have hlen1 : (db.profiles.filter (fun r => r.profileID == pid)).length = 1 := by
      obtain ⟨r, hr, hrid⟩ := hex
      have hle := length_filter_le_one_of_nodup_map (·.profileID) db.profiles hwf.1 pid
      have hge : 0 < (db.profiles.filter (fun r => r.profileID == pid)).length := by
        refine List.length_pos.mpr (List.ne_nil_of_mem (List.mem_filter.mpr ⟨hr, ?_⟩))
        simp [hrid]
      omega
    rw [hlen1]
    rfl

/-- Incoming profile with a fresh identifier but a name colliding with
`sampleProfile`'s, used by the C9 counterexample. -/
def c9Incoming : IncomingProfile :=
  { teamID := none, identifier := "I2", name := "N1", mobileconfig := "mc2" }

/-- C9 counterexample: creating `c9Incoming` over `sampleDB` surfaces the
"already exists" error (duplicate (scope, name) index) although no
profile with the same (scope, identifier) exists, refuting the claimed
"exactly when". -/
theorem C9_counterexample :
    isAlreadyExistsErr (NewMDMAppleConfigProfile sampleDB c9Incoming) = true ∧
    sampleDB.profiles.any
      (fun r => r.teamID == 0 && r.identifier == c9Incoming.identifier) = false := by
  decide

theorem C9_witness :
    isNotFoundRes (GetMDMAppleConfigProfile sampleDB 5) = true ↔
      ¬∃ r ∈ sampleDB.profiles, r.profileID = 5 :=
  (C9_profile_crud_errors sampleDB c9Incoming 5 (by decide)).2.1

end FleetMDM

namespace FleetMDM

/-- C10: `BulkSetPendingMDMAppleHostProfiles` accepts at most one
non-empty selector: with two or more non-empty selectors it returns the
validation error without mutating anything (the transaction rolls back,
modelled by the error carrying no state), and with all four empty it
returns success with the state unchanged. -/
theorem C10_bulkSetPending_arg_validation (db : DB) (hostIDs teamIDs profileIDs : List Nat)
    (hostUUIDs : List String) :
    (((if hostIDs.isEmpty then 0 else 1) + (if teamIDs.isEmpty then 0 else 1) +
      (if profileIDs.isEmpty then 0 else 1) + (if hostUUIDs.isEmpty then 0 else 1) : Nat) > 1 →
      BulkSetPendingMDMAppleHostProfiles db hostIDs teamIDs profileIDs hostUUIDs =
        .error "only one of hostIDs, teamIDs, profileIDs or hostUUIDs can be provided") ∧
    (hostIDs = [] → teamIDs = [] → profileIDs = [] → hostUUIDs = [] →
      BulkSetPendingMDMAppleHostProfiles db hostIDs teamIDs profileIDs hostUUIDs = .ok db) := by
  constructor
  · intro hcnt
    unfold BulkSetPendingMDMAppleHostProfiles
    rw [if_pos hcnt]
  · rintro rfl rfl rfl rfl
    rfl

theorem C10_witness :
    (((if ([1] : List Nat).isEmpty then 0 else 1) + (if ([2] : List Nat).isEmpty then 0 else 1) +
      (if ([] : List Nat).isEmpty then 0 else 1) +
      (if ([] : List String).isEmpty then 0 else 1) : Nat) > 1 ∧
     BulkSetPendingMDMAppleHostProfiles sampleDB [1] [2] [] [] =
       .error "only one of hostIDs, teamIDs, profileIDs or hostUUIDs can be provided") ∧
    BulkSetPendingMDMAppleHostProfiles sampleDB [] [] [] [] = .ok sampleDB :=
  ⟨⟨by decide,
    (C10_bulkSetPending_arg_validation sampleDB [1] [2] [] []).1 (by decide)⟩,
   (C10_bulkSetPending_arg_validation sampleDB [] [] [] []).2 rfl rfl rfl rfl⟩

end FleetMDM

namespace FleetMDM

theorem dedupByIdentifier_subset {ps : List IncomingProfile} {q : IncomingProfile}
    (h : q ∈ dedupByIdentifier ps) : q ∈ ps := by
  induction ps with
  | nil => simp [dedupByIdentifier] at h
  | cons q0 rest ih =>
      unfold dedupByIdentifier at h
      by_cases hany : rest.any (fun q2 => q2.identifier == q0.identifier) = true
      · rw [if_pos hany] at h
        exact List.mem_cons_of_mem _ (ih h)
      · rw [if_neg hany] at h
        rcases List.mem_cons.mp h with rfl | hmem
        · exact List.mem_cons_self _ _
        · exact List.mem_cons_of_mem _ (ih hmem)

theorem dedupByIdentifier_idents_nodup (ps : List IncomingProfile) :
    ((dedupByIdentifier ps).map (·.identifier)).Nodup := by
  induction ps with
  | nil => simp [dedupByIdentifier]
  | cons q0 rest ih =>
      unfold dedupByIdentifier
      by_cases hany : rest.any (fun q2 => q2.identifier == q0.identifier) = true
      · rw [if_pos hany]
        exact ih
      · rw [if_neg hany]
        simp only [List.map_cons, List.nodup_cons]
        refine ⟨?_, ih⟩
        intro hmem
        obtain ⟨q', hq', heq⟩ := List.mem_map.mp hmem
        exact hany (List.any_eq_true.mpr
          ⟨q', dedupByIdentifier_subset hq', by simp [heq]⟩)

theorem filter_map_eq_filter {α : Type} (g : α → α) (p : α → Bool) (l : List α)
    (hg : ∀ x, p x = true → g x = x) (hp : ∀ x, p (g x) = p x) :
    (l.map g).filter p = l.filter p := by
  induction l with
  | nil => rfl
  | cons a l ih =>
      simp only [List.map_cons, List.filter_cons, hp a]
      cases hpa : p a with
      | true => rw [hg a hpa, ih]
      | false => exact ih

theorem batch_fold_exists_teamident (t : Nat) (qs : List IncomingProfile)
    (st : List Profile × Nat) (ident : String)
    (h : ∃ r ∈ st.1, r.teamID = t ∧ r.identifier = ident) :
    ∃ r ∈ (qs.foldl (batchUpsertProfileOne t) st).1,
      r.teamID = t ∧ r.identifier = ident := by
  induction qs generalizing st with
  | nil => exact h
  | cons q0 qs' ih =>
      simp only [List.foldl_cons]
      refine ih _ ?_
      obtain ⟨r, hr, hP⟩ := h
      unfold batchUpsertProfileOne
      by_cases h1 : st.1.any (fun r0 => r0.teamID == t && r0.identifier == q0.identifier) = true
      · rw [if_pos h1]
        refine ⟨_, List.mem_map.mpr ⟨r, hr, rfl⟩, ?_⟩
        by_cases hc : (r.teamID == t && r.identifier == q0.identifier) = true
        · rw [if_pos hc]
          exact hP
        · rw [if_neg hc]
          exact hP
      · rw [if_neg h1]
        by_cases h2 : st.1.any (fun r0 => r0.teamID == t && r0.name == q0.name) = true
        · rw [if_pos h2]
          refine ⟨_, List.mem_map.mpr ⟨r, hr, rfl⟩, ?_⟩
          by_cases hc : (r.teamID == t && r.name == q0.name) = true
          · rw [if_pos hc]
            exact hP
          · rw [if_neg hc]
            exact hP
        · rw [if_neg h2]
          exact ⟨r, List.mem_append_left _ hr, hP⟩

theorem batch_fold_absent (t : Nat) (qs : List IncomingProfile)
    (st : List Profile × Nat) (ident : String)
    (hst : ∀ r ∈ st.1, r.teamID = t → r.identifier ≠ ident)
    (hqs : ∀ q ∈ qs, q.identifier ≠ ident) :
    ∀ r ∈ (qs.foldl (batchUpsertProfileOne t) st).1, r.teamID = t → r.identifier ≠ ident := by
  induction qs generalizing st with
  | nil => exact hst
  | cons q0 qs' ih =>
      simp only [List.foldl_cons]
      refine ih _ ?_ (fun q hq' => hqs q (List.mem_cons_of_mem _ hq'))
      unfold batchUpsertProfileOne
      by_cases hany : st.1.any (fun r0 => r0.teamID == t && r0.identifier == q0.identifier) = true
      · rw [if_pos hany]
        intro r hr
        obtain ⟨r0, hr0, heq⟩ := List.mem_map.mp hr
        by_cases hc : (r0.teamID == t && r0.identifier == q0.identifier) = true
        · rw [if_pos hc] at heq
          subst heq
          simp only [Bool.and_eq_true, beq_iff_eq] at hc
          intro _ hbad
          exact hqs q0 (List.mem_cons_self _ _) (by rw [← hc.2]; exact hbad)
        · rw [if_neg hc] at heq
          subst heq
          exact hst r0 hr0
      · rw [if_neg hany]
        by_cases h2 : st.1.any (fun r0 => r0.teamID == t && r0.name == q0.name) = true
        · rw [if_pos h2]
          intro r hr
          obtain ⟨r0, hr0, heq⟩ := List.mem_map.mp hr
          by_cases hc : (r0.teamID == t && r0.name == q0.name) = true
          · rw [if_pos hc] at heq
            subst heq
            exact hst r0 hr0
          · rw [if_neg hc] at heq
            subst heq
            exact hst r0 hr0
        · rw [if_neg h2]
          intro r hr
          rcases List.mem_append.mp hr with hmem | hmem
          · exact hst r hmem
          · rw [List.mem_singleton] at hmem
            subst hmem
            intro _ hbad
            exact hqs q0 (List.mem_cons_self _ _) hbad

theorem batch_fold_other_scope (t : Nat) (qs : List IncomingProfile)
    (st : List Profile × Nat) :
    (qs.foldl (batchUpsertProfileOne t) st).1.filter (fun r => !(r.teamID == t)) =
      st.1.filter (fun r => !(r.teamID == t)) := by
  induction qs generalizing st with
  | nil => rfl
  | cons q0 qs' ih =>
      simp only [List.foldl_cons]
      rw [ih]
      unfold batchUpsertProfileOne
      by_cases hany : st.1.any (fun r0 => r0.teamID == t && r0.identifier == q0.identifier) = true
      · rw [if_pos hany]
        refine filter_map_eq_filter _ _ _ ?_ ?_
        · intro x hx
          rw [if_neg]
          simp only [Bool.not_eq_true'] at hx
          simp [hx]
        · intro x
          by_cases hc : (x.teamID == t && x.identifier == q0.identifier) = true
          · rw [if_pos hc]
            rfl
          · rw [if_neg hc]
      · rw [if_neg hany]
        by_cases h2 : st.1.any (fun r0 => r0.teamID == t && r0.name == q0.name) = true
        · rw [if_pos h2]
          refine filter_map_eq_filter _ _ _ ?_ ?_
          · intro x hx
            rw [if_neg]
            simp only [Bool.not_eq_true'] at hx
            simp [hx]
          · intro x
            by_cases hc : (x.teamID == t && x.name == q0.name) = true
            · rw [if_pos hc]
              rfl
            · rw [if_neg hc]
        · rw [if_neg h2]
          simp [List.filter_append, newProfileRow]

end FleetMDM

namespace FleetMDM

/-- Row shape produced for an incoming profile by the upsert step of
`BatchSetMDMAppleProfiles`. -/
def batchRowP (t : Nat) (q : IncomingProfile) (r : Profile) : Prop :=
  r.teamID = t ∧ r.identifier = q.identifier ∧ r.name = q.name ∧
  r.mobileconfig = q.mobileconfig ∧ r.checksum = profileChecksum q.mobileconfig

theorem batch_fold_maintain (t : Nat) (qs : List IncomingProfile)
    (st : List Profile × Nat) (q : IncomingProfile)
    (hst : ∃ r ∈ st.1, batchRowP t q r)
    (hqs : ∀ q' ∈ qs, q'.identifier = q.identifier →
      q'.name = q.name ∧ q'.mobileconfig = q.mobileconfig) :
    ∃ r ∈ (qs.foldl (batchUpsertIdentOnly t) st).1, batchRowP t q r := by
  induction qs generalizing st with
  | nil => exact hst
  | cons q0 qs' ih =>
      simp only [List.foldl_cons]
      refine ih _ ?_ (fun q' h' hi => hqs q' (List.mem_cons_of_mem _ h') hi)
      obtain ⟨r, hr, hP⟩ := hst
      unfold batchUpsertIdentOnly
      by_cases hid : q0.identifier = q.identifier
      · have hcond : (r.teamID == t && r.identifier == q0.identifier) = true := by
          simp [hP.1, hP.2.1, hid]
        have hany : st.1.any
            (fun r0 => r0.teamID == t && r0.identifier == q0.identifier) = true :=
          List.any_eq_true.mpr ⟨r, hr, hcond⟩
        rw [if_pos hany]
        obtain ⟨hn, hm⟩ := hqs q0 (List.mem_cons_self _ _) hid
        refine ⟨_, List.mem_map.mpr ⟨r, hr, rfl⟩, ?_⟩
        rw [if_pos hcond]
        exact ⟨hP.1, hP.2.1, hn, hm, congrArg profileChecksum hm⟩
      · have hcond : (r.teamID == t && r.identifier == q0.identifier) = false := by
          have : (r.identifier == q0.identifier) = false :=
            beq_eq_false_iff_ne.mpr (by rw [hP.2.1]; exact fun e => hid e.symm)
          simp [this]
        by_cases hany : st.1.any
            (fun r0 => r0.teamID == t && r0.identifier == q0.identifier) = true
        · rw [if_pos hany]
          refine ⟨r, List.mem_map.mpr ⟨r, hr, ?_⟩, hP⟩
          rw [if_neg (by simp [hcond])]
        · rw [if_neg hany]
          exact ⟨r, List.mem_append_left _ hr, hP⟩

theorem batch_fold_establish (t : Nat) (qs : List IncomingProfile)
    (st : List Profile × Nat) (q : IncomingProfile) (hq : q ∈ qs)
    (huniq : ∀ q' ∈ qs, q'.identifier = q.identifier →
      q'.name = q.name ∧ q'.mobileconfig = q.mobileconfig) :
    ∃ r ∈ (qs.foldl (batchUpsertIdentOnly t) st).1, batchRowP t q r := by
  induction qs generalizing st with
  | nil => cases hq
  | cons q0 qs' ih =>
      simp only [List.foldl_cons]
      rcases List.mem_cons.mp hq with heq | hmem
      · subst heq
        refine batch_fold_maintain t qs' _ q ?_
          (fun q' h' hi => huniq q' (List.mem_cons_of_mem _ h') hi)
        unfold batchUpsertIdentOnly
        by_cases hany : st.1.any
            (fun r0 => r0.teamID == t && r0.identifier == q.identifier) = true
        · rw [if_pos hany]
          obtain ⟨r0, hr0, hcond⟩ := List.any_eq_true.mp hany
          refine ⟨_, List.mem_map.mpr ⟨r0, hr0, rfl⟩, ?_⟩
          rw [if_pos hcond]
          simp only [Bool.and_eq_true, beq_iff_eq] at hcond
          exact ⟨hcond.1, hcond.2, rfl, rfl, rfl⟩
        · rw [if_neg hany]
          exact ⟨_, List.mem_append_right _ (List.mem_singleton_self _),
            rfl, rfl, rfl, rfl, rfl⟩
      · exact ih _ hmem (fun q' h' hi => huniq q' (List.mem_cons_of_mem _ h') hi)

end FleetMDM

namespace FleetMDM

theorem batchStep_eq_of_inv (t : Nat) (st : List Profile × Nat) (q0 : IncomingProfile)
    (hinv : ∀ r ∈ st.1, r.teamID = t → r.name = q0.name → r.identifier = q0.identifier) :
    batchUpsertProfileOne t st q0 = batchUpsertIdentOnly t st q0 := by
  unfold batchUpsertProfileOne batchUpsertIdentOnly
  by_cases h1 : st.1.any (fun r => r.teamID == t && r.identifier == q0.identifier) = true
  · rw [if_pos h1, if_pos h1]
  · rw [if_neg h1, if_neg h1]
    rw [if_neg ?_]
    intro h2
    obtain ⟨r, hr, hc⟩ := List.any_eq_true.mp h2
    simp only [Bool.and_eq_true, beq_iff_eq] at hc
    refine h1 (List.any_eq_true.mpr ⟨r, hr, ?_⟩)
    simp [hc.1, hinv r hr hc.1 hc.2]

theorem batch_fold_eq_of_inv (t : Nat) (qs : List IncomingProfile)
    (st : List Profile × Nat) (hnames : (qs.map (·.name)).Nodup)
    (hinv : ∀ r ∈ st.1, r.teamID = t →
      ∀ q' ∈ qs, r.name = q'.name → r.identifier = q'.identifier) :
    qs.foldl (batchUpsertProfileOne t) st = qs.foldl (batchUpsertIdentOnly t) st := by
  induction qs generalizing st with
  | nil => rfl
  | cons q0 qs' ih =>
      simp only [List.foldl_cons]
      rw [batchStep_eq_of_inv t st q0
        (fun r hr ht hn => hinv r hr ht q0 (List.mem_cons_self _ _) hn)]
      simp only [List.map_cons, List.nodup_cons] at hnames
      refine ih _ hnames.2 ?_
      intro r' hr' ht' q' hq' hn'
      unfold batchUpsertIdentOnly at hr'
      by_cases h1 : st.1.any (fun r => r.teamID == t && r.identifier == q0.identifier) = true
      · rw [if_pos h1] at hr'
        obtain ⟨r0, hr0, heq⟩ := List.mem_map.mp hr'
        by_cases hc : (r0.teamID == t && r0.identifier == q0.identifier) = true
        · rw [if_pos hc] at heq
          subst heq
          exact absurd (List.mem_map.mpr ⟨q', hq', hn'.symm⟩) hnames.1
        · rw [if_neg hc] at heq
          subst heq
          exact hinv r0 hr0 ht' q' (List.mem_cons_of_mem _ hq') hn'
      · rw [if_neg h1] at hr'
        rcases List.mem_append.mp hr' with hm | hm
        · exact hinv r' hm ht' q' (List.mem_cons_of_mem _ hq') hn'
        · rw [List.mem_singleton] at hm
          subst hm
          exact absurd (List.mem_map.mpr ⟨q', hq', hn'.symm⟩) hnames.1

/-- C3 (amended): `BatchSetMDMAppleProfiles(scope, profiles)` replaces
the scope's desired-state profile set atomically: (i) profiles of every
other scope are untouched, (ii) a profile of the scope whose identifier
is neither among the incoming identifiers nor product-reserved does not
survive the call, and (iii) when the incoming profiles' names are
pairwise distinct and no profile of the scope shares a name with an
incoming profile of a different identifier — i.e. when the
(`team_id`, `name`) unique key cannot fire on a foreign row — every
incoming profile (last occurrence per identifier) ends up stored in the
scope with its name and payload and the checksum recomputed as the hash
of the new payload.  Without that proviso an incoming profile whose name
collides updates the name-matching row in place, which keeps its old
identifier (see the counterexample). -/
theorem C3_batchSetProfiles_replace (db : DB) (tmID : Option Nat)
    (ps : List IncomingProfile) :
    ((BatchSetMDMAppleProfiles db tmID ps).profiles.filter
        (fun r => !(r.teamID == tmID.getD 0)) =
      db.profiles.filter (fun r => !(r.teamID == tmID.getD 0))) ∧
    (∀ ident : String, (ps.map (·.identifier)).contains ident = false →
      fleetPayloadIdentifiers.contains ident = false →
      ∀ r ∈ (BatchSetMDMAppleProfiles db tmID ps).profiles,
        r.teamID = tmID.getD 0 → r.identifier ≠ ident) ∧
    (((dedupByIdentifier ps).map (·.name)).Nodup →
      (∀ r ∈ db.profiles, r.teamID = tmID.getD 0 →
        ∀ q ∈ dedupByIdentifier ps, r.name = q.name → r.identifier = q.identifier) →
      ∀ q ∈ dedupByIdentifier ps,
        ∃ r ∈ (BatchSetMDMAppleProfiles db tmID ps).profiles,
          batchRowP (tmID.getD 0) q r) := by
  have hprofiles : (BatchSetMDMAppleProfiles db tmID ps).profiles =
      ((dedupByIdentifier ps).foldl (batchUpsertProfileOne (tmID.getD 0))
        (batchAfterDelete db (tmID.getD 0) ps, db.nextProfileID)).1 := rfl
  refine ⟨?_, ?_, ?_⟩
  · rw [hprofiles, batch_fold_other_scope]
    unfold batchAfterDelete
    rw [List.filter_filter]
    refine List.filter_congr ?_
    intro r _
    by_cases ht : (r.teamID == tmID.getD 0) = true
    · simp [ht]
    · simp [ht]
  · intro ident h1 h2 r hr ht
    rw [hprofiles] at hr
    refine batch_fold_absent _ _ _ ident ?_ ?_ r hr ht
    · intro r0 hr0 ht0 hbad
      have hm := List.mem_filter.mp hr0
      have hp := hm.2
      rw [Bool.not_eq_true', Bool.and_eq_false_iff] at hp
      rcases hp with hp | hp
      · exact absurd ht0 (by simpa using hp)
      · rw [Bool.not_eq_false'] at hp
        rw [hbad] at hp
        rcases List.mem_append.mp (List.elem_iff.mp hp) with hk | hf
        · unfold batchKeepIdents at hk
          obtain ⟨r2, hr2, hif⟩ := List.mem_filterMap.mp hk
          by_cases hc : ps.any (fun q => q.identifier == r2.identifier) = true
          · rw [if_pos hc] at hif
            have hride : r2.identifier = ident := Option.some_inj.mp hif
            obtain ⟨q2, hq2, hqe⟩ := List.any_eq_true.mp hc
            rw [beq_iff_eq] at hqe
            have hctr : (ps.map (·.identifier)).contains ident = true := by
              refine List.elem_iff.mpr (List.mem_map.mpr ⟨q2, hq2, ?_⟩)
              rw [hqe, hride]
            rw [h1] at hctr
            cases hctr
          · rw [if_neg hc] at hif
            cases hif
        · have : fleetPayloadIdentifiers.contains ident = true := List.elem_iff.mpr hf
          rw [h2] at this
          cases this
    · intro q hq hbad
      have hmem := dedupByIdentifier_subset hq
      have hctr : (ps.map (·.identifier)).contains ident = true :=
        List.elem_iff.mpr (List.mem_map.mpr ⟨q, hmem, hbad⟩)
      rw [h1] at hctr
      cases hctr
  · intro hnames hnoclash q hq
    rw [hprofiles]
    have hinv0 : ∀ r ∈ batchAfterDelete db (tmID.getD 0) ps, r.teamID = tmID.getD 0 →
        ∀ q' ∈ dedupByIdentifier ps, r.name = q'.name → r.identifier = q'.identifier :=
      fun r hr ht q' hq' hn => hnoclash r (List.mem_filter.mp hr).1 ht q' hq' hn
    rw [batch_fold_eq_of_inv (tmID.getD 0) (dedupByIdentifier ps) _ hnames hinv0]
    refine batch_fold_establish _ _ _ q hq ?_
    intro q' hq' hid
    have : q' = q :=
      List.inj_on_of_nodup_map (dedupByIdentifier_idents_nodup ps) hq' hq hid
    rw [this]
    exact ⟨rfl, rfl⟩

/-- Incoming profiles with distinct identifiers but the same name, used
by the C3 counterexample. -/
def c3P1 : IncomingProfile :=
  { teamID := none, identifier := "I1", name := "N", mobileconfig := "mc1" }

def c3P2 : IncomingProfile :=
  { teamID := none, identifier := "I2", name := "N", mobileconfig := "mc2" }

def c3DB : DB :=
  { sampleDB with profiles := [] }

/-- C3 counterexample: batch-setting two name-colliding profiles into an
empty scope.  The claim as stated promises a row under each incoming
identifier (the scope has no (scope, identifier) conflicts at all), but
the second insert conflicts on the (`team_id`, `name`) unique key and
updates the first row in place: the final state is a single row with
identifier I1 carrying I2's payload, and no row with identifier I2. -/
theorem C3_counterexample :
    c3DB.profiles = [] ∧
    (BatchSetMDMAppleProfiles c3DB none [c3P1, c3P2]).profiles.any
      (fun r => r.identifier == "I2") = false ∧
    (BatchSetMDMAppleProfiles c3DB none [c3P1, c3P2]).profiles.map
      (fun r => (r.identifier, r.name, r.mobileconfig)) = [("I1", "N", "mc2")] := by
  decide

/-- Incoming profile with a name fresh for `sampleDB`'s scope. -/
def c3Fresh : IncomingProfile :=
  { teamID := none, identifier := "I3", name := "N3", mobileconfig := "mc3" }

theorem C3_witness :
    ((BatchSetMDMAppleProfiles sampleDB none [c3Fresh]).profiles.filter
        (fun r => !(r.teamID == 0)) =
      sampleDB.profiles.filter (fun r => !(r.teamID == 0))) ∧
    (∃ r ∈ (BatchSetMDMAppleProfiles sampleDB none [c3Fresh]).profiles,
      batchRowP 0 c3Fresh r) :=
  ⟨(C3_batchSetProfiles_replace sampleDB none [c3Fresh]).1,
   (C3_batchSetProfiles_replace sampleDB none [c3Fresh]).2.2 (by decide) (by decide)
     c3Fresh (by decide)⟩

end FleetMDM

namespace FleetMDM

/-- C4: product-reserved (Fleet) profiles are protected: a bulk replace
whose incoming set omits a reserved identifier never deletes the scope's
profile bearing it — the delete step spares reserved identifiers and the
upserts never change a row's identifier, so a row with the reserved
identifier remains in the scope (a name-key conflict may refresh its
payload in place, but the profile is not deleted) — and direct deletion
of a profile bearing a reserved identifier, by ID or by
(team, identifier), is rejected at the service layer with a validation
error. -/
theorem C4_reserved_profiles_protected :
    (∀ (db : DB) (tmID : Option Nat) (ps : List IncomingProfile) (ident : String),
      fleetPayloadIdentifiers.contains ident = true →
      (∃ r ∈ db.profiles, r.teamID = tmID.getD 0 ∧ r.identifier = ident) →
      (ps.map (·.identifier)).contains ident = false →
      ∃ r ∈ (BatchSetMDMAppleProfiles db tmID ps).profiles,
        r.teamID = tmID.getD 0 ∧ r.identifier = ident) ∧
    (∀ (db : DB) (pid : Nat) (r : Profile),
      db.profiles.find? (fun x => x.profileID == pid) = some r →
      fleetPayloadIdentifiers.contains r.identifier = true →
      svcDeleteMDMAppleConfigProfile db pid =
        .error (.validation "cannot delete Fleet-reserved profile")) ∧
    (∀ (db : DB) (tmID : Option Nat) (ident : String),
      fleetPayloadIdentifiers.contains ident = true →
      svcDeleteMDMAppleConfigProfileByTeamAndIdentifier db tmID ident =
        .error (.validation "cannot delete Fleet-reserved profile")) := by
  refine ⟨?_, ?_, ?_⟩
  · intro db tmID ps ident hfleet hex _
    obtain ⟨r, hr, hP⟩ := hex
    have hprofiles : (BatchSetMDMAppleProfiles db tmID ps).profiles =
        ((dedupByIdentifier ps).foldl (batchUpsertProfileOne (tmID.getD 0))
          (batchAfterDelete db (tmID.getD 0) ps, db.nextProfileID)).1 := rfl
    rw [hprofiles]
    refine batch_fold_exists_teamident _ _ _ ident ⟨r, List.mem_filter.mpr ⟨hr, ?_⟩, hP⟩
    have hall : (batchKeepIdents db (tmID.getD 0) ps ++
        fleetPayloadIdentifiers).contains r.identifier = true := by
      refine List.elem_iff.mpr (List.mem_append_right _ ?_)
      rw [hP.2]
      exact List.elem_iff.mp hfleet
    simp only [Bool.not_eq_true', Bool.and_eq_false_iff, Bool.not_eq_false', hall]
    right
    trivial
  · intro db pid r hfind hfleet
    unfold svcDeleteMDMAppleConfigProfile
    rw [hfind]
    exact if_pos hfleet
  · intro db tmID ident hfleet
    unfold svcDeleteMDMAppleConfigProfileByTeamAndIdentifier
    rw [if_pos hfleet]

/-- Fleet-owned FileVault profile stored in the no-team scope. -/
def fvProfile : Profile :=
  { profileID := 7, teamID := 0, identifier := "com.fleetdm.fleet.mdm.filevault",
    name := "FV", mobileconfig := "fv", checksum := 77 }

def c4DB : DB :=
  { sampleDB with profiles := [sampleProfile, fvProfile] }

theorem C4_witness :
    (∃ r ∈ (BatchSetMDMAppleProfiles c4DB none [c9Incoming]).profiles,
      r.teamID = 0 ∧ r.identifier = "com.fleetdm.fleet.mdm.filevault") ∧
    svcDeleteMDMAppleConfigProfile c4DB 7 =
      .error (.validation "cannot delete Fleet-reserved profile") ∧
    svcDeleteMDMAppleConfigProfileByTeamAndIdentifier c4DB none
        "com.fleetdm.fleet.mdm.filevault" =
      .error (.validation "cannot delete Fleet-reserved profile") :=
  ⟨C4_reserved_profiles_protected.1 c4DB none [c9Incoming]
      "com.fleetdm.fleet.mdm.filevault" (by decide) (by decide) (by decide),
   C4_reserved_profiles_protected.2.1 c4DB 7 fvProfile (by decide) (by decide),
   C4_reserved_profiles_protected.2.2 c4DB none "com.fleetdm.fleet.mdm.filevault" (by decide)⟩

end FleetMDM

namespace FleetMDM

theorem find?_append_of_none {α : Type} (p : α → Bool) (l1 l2 : List α)
    (h : l1.find? p = none) : (l1 ++ l2).find? p = l2.find? p := by
  induction l1 with
  | nil => rfl
  | cons a t ih =>
      rw [List.find?_cons] at h
      cases hpa : p a with
      | true => rw [hpa] at h; cases h
      | false =>
          rw [hpa] at h
          simp only [List.cons_append, List.find?_cons, hpa]
          exact ih h

theorem find?_map_of_pred_invariant {α : Type} (g : α → α) (p : α → Bool) (l : List α)
    (hp : ∀ r, p (g r) = p r) : (l.map g).find? p = (l.find? p).map g := by
  induction l with
  | nil => rfl
  | cons a t ih =>
      simp only [List.map_cons, List.find?_cons, hp a]
      cases hpa : p a with
      | true => rfl
      | false => exact ih

/-- The map function of `upsertHostProfileOne` preserves the primary-key
columns of every row. -/
theorem upsert_update_preserves_key (q : BulkUpsertHostProfilePayload) (r : HMAPRow) :
    ((if rowKeyMatches r q then
        { r with status := q.status, operationType := q.operationType,
                 commandUUID := q.commandUUID }
      else r).hostUUID = r.hostUUID) ∧
    ((if rowKeyMatches r q then
        { r with status := q.status, operationType := q.operationType,
                 commandUUID := q.commandUUID }
      else r).profileID = r.profileID) := by
  by_cases hc : rowKeyMatches r q = true
  · rw [if_pos hc]
    exact ⟨rfl, rfl⟩
  · rw [if_neg hc]
    exact ⟨rfl, rfl⟩

theorem find?_append_of_some {α : Type} (p : α → Bool) (l1 l2 : List α) (r : α)
    (h : l1.find? p = some r) : (l1 ++ l2).find? p = some r := by
  induction l1 with
  | nil => cases h
  | cons a t ih =>
      rw [List.find?_cons] at h
      cases hpa : p a with
      | true =>
          rw [hpa] at h
          simp only [List.cons_append, List.find?_cons, hpa]
          exact h
      | false =>
          rw [hpa] at h
          simp only [List.cons_append, List.find?_cons, hpa]
          exact ih h

theorem lookup_upsert_other (rows : List HMAPRow) (q : BulkUpsertHostProfilePayload)
    (uuid : String) (pid : Nat) (hne : ¬(q.hostUUID = uuid ∧ q.profileID = pid)) :
    lookupRow (upsertHostProfileOne rows q) uuid pid = lookupRow rows uuid pid := by
  unfold upsertHostProfileOne lookupRow
  by_cases hany : rows.any (fun r => rowKeyMatches r q) = true
  · rw [if_pos hany]
    rw [find?_map_of_pred_invariant _ _ _ (fun r => by
      rcases upsert_update_preserves_key q r with ⟨h1, h2⟩
      rw [h1, h2])]
    cases hfind : rows.find? (fun r => r.hostUUID == uuid && r.profileID == pid) with
    | none => rfl
    | some r0 =>
        have hpred := List.find?_some hfind
        simp only [Bool.and_eq_true, beq_iff_eq] at hpred
        show some (if rowKeyMatches r0 q then
            { r0 with status := q.status, operationType := q.operationType,
                      commandUUID := q.commandUUID } else r0) = some r0
        rw [if_neg ?_]
        intro hkm
        unfold rowKeyMatches at hkm
        simp only [Bool.and_eq_true, beq_iff_eq] at hkm
        exact hne ⟨hkm.1 ▸ hpred.1, hkm.2 ▸ hpred.2⟩
  · rw [if_neg hany]
    cases hfind : rows.find? (fun r => r.hostUUID == uuid && r.profileID == pid) with
    | none =>
        rw [find?_append_of_none _ _ _ hfind]
        have hpred : ((newRowOfPayload q).hostUUID == uuid &&
            (newRowOfPayload q).profileID == pid) = false := by
          rcases not_and_or.mp hne with h1 | h1
          · simp only [Bool.and_eq_false_iff, beq_eq_false_iff_ne]
            exact Or.inl h1
          · simp only [Bool.and_eq_false_iff, beq_eq_false_iff_ne]
            exact Or.inr h1
        simp only [List.find?_cons, hpred]
        rfl
    | some r0 => exact find?_append_of_some _ _ _ _ hfind

end FleetMDM


namespace FleetMDM

/-- Row stored for an upsert payload key after one
`upsertHostProfileOne` step: the updated old row when one existed, the
fresh row otherwise. -/
def upsertResultRow (q : BulkUpsertHostProfilePayload) : Option HMAPRow → HMAPRow
  | some r0 =>
      { r0 with status := q.status, operationType := q.operationType,
                commandUUID := q.commandUUID }
  | none => newRowOfPayload q

theorem lookup_upsert_self (rows : List HMAPRow) (q : BulkUpsertHostProfilePayload) :
    lookupRow (upsertHostProfileOne rows q) q.hostUUID q.profileID =
      some (upsertResultRow q (lookupRow rows q.hostUUID q.profileID)) := by
  unfold upsertHostProfileOne lookupRow
  by_cases hany : rows.any (fun r => rowKeyMatches r q) = true
  · rw [if_pos hany]
    rw [find?_map_of_pred_invariant _ _ _ (fun r => by
      rcases upsert_update_preserves_key q r with ⟨h1, h2⟩
      rw [h1, h2])]
    cases hfind : rows.find? (fun r => r.hostUUID == q.hostUUID &&
        r.profileID == q.profileID) with
    | none =>
        exfalso
        obtain ⟨r0, hr0, hkm⟩ := List.any_eq_true.mp hany
        have hs : (rows.find? (fun r => r.hostUUID == q.hostUUID &&
            r.profileID == q.profileID)).isSome :=
          List.find?_isSome.mpr ⟨r0, hr0, hkm⟩
        rw [hfind] at hs
        cases hs
    | some r0 =>
        have hpred := List.find?_some hfind
        show some (if rowKeyMatches r0 q then _ else r0) = _
        rw [if_pos (show rowKeyMatches r0 q = true from hpred)]
        rfl
  · rw [if_neg hany]
    cases hfind : rows.find? (fun r => r.hostUUID == q.hostUUID &&
        r.profileID == q.profileID) with
    | none =>
        rw [find?_append_of_none _ _ _ hfind]
        have hpred : ((newRowOfPayload q).hostUUID == q.hostUUID &&
            (newRowOfPayload q).profileID == q.profileID) = true := by
          simp [newRowOfPayload]
        simp only [List.find?_cons, hpred]
        rfl
    | some r0 =>
        exfalso
        have hmem := List.mem_of_find?_eq_some hfind
        have hpred := List.find?_some hfind
        exact hany (List.any_eq_true.mpr ⟨r0, hmem, hpred⟩)

theorem lookup_fold_upsert_other (qs : List BulkUpsertHostProfilePayload)
    (rows : List HMAPRow) (uuid : String) (pid : Nat)
    (hq : ∀ q ∈ qs, ¬(q.hostUUID = uuid ∧ q.profileID = pid)) :
    lookupRow (qs.foldl upsertHostProfileOne rows) uuid pid = lookupRow rows uuid pid := by
  induction qs generalizing rows with
  | nil => rfl
  | cons q0 qs' ih =>
      simp only [List.foldl_cons]
      rw [ih _ (fun q h => hq q (List.mem_cons_of_mem _ h))]
      exact lookup_upsert_other rows q0 uuid pid (hq q0 (List.mem_cons_self _ _))

/-- Field contents of a final ledger row for a recorded payload key. -/
def recordedRowP (q : BulkUpsertHostProfilePayload) (r : HMAPRow) : Prop :=
  r.status = q.status ∧ r.operationType = q.operationType ∧ r.checksum = q.checksum

theorem lookup_fold_upsert_key_maintain (qs : List BulkUpsertHostProfilePayload)
    (rows : List HMAPRow) (q : BulkUpsertHostProfilePayload)
    (huniq : ∀ q' ∈ qs, (q'.hostUUID = q.hostUUID ∧ q'.profileID = q.profileID) → q' = q)
    (hK : ∃ r, lookupRow rows q.hostUUID q.profileID = some r ∧ recordedRowP q r) :
    ∃ r, lookupRow (qs.foldl upsertHostProfileOne rows) q.hostUUID q.profileID = some r ∧
      recordedRowP q r := by
  induction qs generalizing rows with
  | nil => exact hK
  | cons q0 qs' ih =>
      simp only [List.foldl_cons]
      refine ih _ (fun q' h' hk => huniq q' (List.mem_cons_of_mem _ h') hk) ?_
      by_cases hkey : q0.hostUUID = q.hostUUID ∧ q0.profileID = q.profileID
      · have hq0 : q0 = q := huniq q0 (List.mem_cons_self _ _) hkey
        subst hq0
        obtain ⟨r, hr, hP⟩ := hK
        rw [lookup_upsert_self, hr]
        exact ⟨_, rfl, rfl, rfl, hP.2.2⟩
      · rw [lookup_upsert_other rows q0 q.hostUUID q.profileID hkey]
        exact hK

theorem lookup_fold_upsert_key (qs : List BulkUpsertHostProfilePayload)
    (rows : List HMAPRow) (q : BulkUpsertHostProfilePayload) (hq : q ∈ qs)
    (huniq : ∀ q' ∈ qs, (q'.hostUUID = q.hostUUID ∧ q'.profileID = q.profileID) → q' = q)
    (hcs : ∀ r0, lookupRow rows q.hostUUID q.profileID = some r0 →
      r0.checksum = q.checksum) :
    ∃ r, lookupRow (qs.foldl upsertHostProfileOne rows) q.hostUUID q.profileID = some r ∧
      recordedRowP q r := by
  induction qs generalizing rows with
  | nil => cases hq
  | cons q0 qs' ih =>
      simp only [List.foldl_cons]
      by_cases hkey : q0.hostUUID = q.hostUUID ∧ q0.profileID = q.profileID
      · have hq0 : q0 = q := huniq q0 (List.mem_cons_self _ _) hkey
        subst hq0
        refine lookup_fold_upsert_key_maintain qs' _ q0
          (fun q' h' hk => huniq q' (List.mem_cons_of_mem _ h') hk) ?_
        rw [lookup_upsert_self]
        cases hfind : lookupRow rows q0.hostUUID q0.profileID with
        | none => exact ⟨_, rfl, rfl, rfl, rfl⟩
        | some r0 => exact ⟨_, rfl, rfl, rfl, hcs r0 hfind⟩
      · rcases List.mem_cons.mp hq with heq | hmem
        · refine absurd ?_ hkey
          rw [heq]
          exact ⟨rfl, rfl⟩
        · refine ih _ hmem (fun q' h' hk => huniq q' (List.mem_cons_of_mem _ h') hk) ?_
          rw [lookup_upsert_other rows q0 q.hostUUID q.profileID hkey]
          exact hcs

end FleetMDM

namespace FleetMDM

theorem mem_fold_upsert (qs : List BulkUpsertHostProfilePayload) (rows : List HMAPRow)
    (r' : HMAPRow) (hr' : r' ∈ qs.foldl upsertHostProfileOne rows) :
    (r' ∈ rows ∧ ∀ q ∈ qs, ¬(r'.hostUUID = q.hostUUID ∧ r'.profileID = q.profileID)) ∨
    (∃ q ∈ qs, r'.hostUUID = q.hostUUID ∧ r'.profileID = q.profileID ∧
      r'.status = q.status ∧ r'.operationType = q.operationType) := by
  induction qs generalizing rows with
  | nil => exact Or.inl ⟨hr', by simp⟩
  | cons q0 qs' ih =>
      simp only [List.foldl_cons] at hr'
      rcases ih _ hr' with ⟨hmem, hnone⟩ | ⟨q, hq, hkey⟩
      · unfold upsertHostProfileOne at hmem
        by_cases hany : rows.any (fun r => rowKeyMatches r q0) = true
        · rw [if_pos hany] at hmem
          obtain ⟨r0, hr0, heq⟩ := List.mem_map.mp hmem
          by_cases hkm : rowKeyMatches r0 q0 = true
          · rw [if_pos hkm] at heq
            subst heq
            refine Or.inr ⟨q0, List.mem_cons_self _ _, ?_⟩
            unfold rowKeyMatches at hkm
            simp only [Bool.and_eq_true, beq_iff_eq] at hkm
            exact ⟨hkm.1, hkm.2, rfl, rfl⟩
          · rw [if_neg hkm] at heq
            subst heq
            refine Or.inl ⟨hr0, ?_⟩
            intro q hqm
            rcases List.mem_cons.mp hqm with heq2 | hq'
            · subst heq2
              intro hkeybad
              unfold rowKeyMatches at hkm
              simp only [Bool.and_eq_true, beq_iff_eq] at hkm
              exact hkm ⟨hkeybad.1, hkeybad.2⟩
            · exact hnone q hq'
        · rw [if_neg hany] at hmem
          rcases List.mem_append.mp hmem with hmem2 | hmem2
          · refine Or.inl ⟨hmem2, ?_⟩
            intro q hqm
            rcases List.mem_cons.mp hqm with heq2 | hq'
            · subst heq2
              intro hkeybad
              refine hany (List.any_eq_true.mpr ⟨r', hmem2, ?_⟩)
              unfold rowKeyMatches
              simp [hkeybad.1, hkeybad.2]
            · exact hnone q hq'
          · rw [List.mem_singleton] at hmem2
            subst hmem2
            exact Or.inr ⟨q0, List.mem_cons_self _ _, rfl, rfl, rfl, rfl⟩
      · exact Or.inr ⟨q, List.mem_cons_of_mem _ hq, hkey⟩

/-- State after the recording pass, written as a single record update. -/
def recordedDB (db : DB) : DB :=
  { db with hostProfiles :=
      (recordPayloads db).foldl upsertHostProfileOne db.hostProfiles }

theorem recordPass_eq (db : DB) : recordPass db = recordedDB db := by
  unfold recordPass recordedDB BulkUpsertMDMAppleHostProfiles
  by_cases he : (recordPayloads db).isEmpty = true
  · rw [if_pos he]
    have hnil := List.isEmpty_iff.mp he
    rw [hnil, List.foldl_nil]
  · rw [if_neg he]

end FleetMDM

namespace FleetMDM

/-- Observed row for the C8 counterexample: operation Install, status
Verifying, checksum differing from the profile's current checksum. -/
def c8Row : HMAPRow :=
  { profileID := 1, hostUUID := "h1", profileIdentifier := "I1", profileName := "N1",
    checksum := 999, operationType := MDMAppleOperationType.install,
    status := some MDMAppleDeliveryStatus.verifying, commandUUID := "c", detail := "" }

def c8DB : DB :=
  { sampleDB with hostProfiles := [c8Row] }

/-- C8 counterexample: recording the pass's candidates through
`BulkUpsertMDMAppleHostProfiles` leaves the desired state (profiles,
hosts, enrollments) unchanged, yet a second
`ListMDMAppleProfilesToInstall` still returns a candidate: the upsert's
`ON DUPLICATE KEY UPDATE` does not refresh the row's checksum, so the
changed-checksum pair recurs. -/
theorem C8_counterexample :
    (recordPass c8DB).profiles = c8DB.profiles ∧
    (recordPass c8DB).hosts = c8DB.hosts ∧
    (recordPass c8DB).nanoEnrollments = c8DB.nanoEnrollments ∧
    ListMDMAppleProfilesToInstall (recordPass c8DB) ≠ [] := by decide

end FleetMDM


namespace FleetMDM

/-- C8 (amended): the store-level recording pass is idempotent provided no
install candidate has a pre-existing status row whose stored checksum
differs from the profile's current checksum
(`BulkUpsertMDMAppleHostProfiles` does not refresh the checksum of an
existing row on conflict; without this proviso a changed-checksum pair
recurs, see the counterexample).  Under that proviso, with the desired
state unchanged, a second call to `ListMDMAppleProfilesToInstall` and
`ListMDMAppleProfilesToRemove` after recording every candidate with
status Pending and the matching operation type returns no candidates. -/
theorem C8_recordPass_idempotent (db : DB) (hwf : db.WF)
    (hstale : ∀ pl ∈ ListMDMAppleProfilesToInstall db,
      ∀ r, lookupRow db.hostProfiles pl.hostUUID pl.profileID = some r →
        r.checksum = pl.checksum) :
    ListMDMAppleProfilesToInstall (recordPass db) = [] ∧
    ListMDMAppleProfilesToRemove (recordPass db) = [] := by
  rw [recordPass_eq]
  constructor
  · rw [List.eq_nil_iff_forall_not_mem]
    intro pl hpl
    rw [mem_listToInstall_iff_raw] at hpl
    obtain ⟨p, hp, h, hh, hcond, hpleq⟩ := hpl
    simp only [Bool.and_eq_true] at hcond
    obtain ⟨hdes, hic⟩ := hcond
    have hdes0 : desiredPair db p h = true := hdes
    have hpm : p ∈ db.profiles := hp
    have hhm : h ∈ db.hosts := hh
    by_cases hic0 : installCond db p h = true
    · have hplmem : toInstallPayload p h ∈ ListMDMAppleProfilesToInstall db :=
        (mem_listToInstall_iff_raw db _).mpr
          ⟨p, hpm, h, hhm, by rw [Bool.and_eq_true]; exact ⟨hdes0, hic0⟩, rfl⟩
      have hqmem : recordPayload MDMAppleOperationType.install (toInstallPayload p h) ∈
          recordPayloads db :=
        List.mem_append_left _ (List.mem_map_of_mem _ hplmem)
      have huniq : ∀ q' ∈ recordPayloads db,
          (q'.hostUUID = h.uuid ∧ q'.profileID = p.profileID) →
          q' = recordPayload MDMAppleOperationType.install (toInstallPayload p h) := by
        intro q' hq' hk
        rcases List.mem_append.mp hq' with hq1 | hq1
        · obtain ⟨pl', hpl', rfl⟩ := List.mem_map.mp hq1
          obtain ⟨p', hp', h', hh', hcond', hpl'eq⟩ :=
            (mem_listToInstall_iff_raw db pl').mp hpl'
          subst hpl'eq
          have hpe : p' = p := profile_eq_of_wf hwf hp' hpm hk.2
          have hhe : h' = h := host_eq_of_wf hwf hh' hhm hk.1
          rw [hpe, hhe]
        · obtain ⟨pl', hpl', rfl⟩ := List.mem_map.mp hq1
          obtain ⟨r0, hr0, hrc0, hpl'eq⟩ := (mem_listToRemove_iff_raw db pl').mp hpl'
          subst hpl'eq
          exfalso
          unfold removeCond at hrc0
          simp only [Bool.and_eq_true, Bool.not_eq_true'] at hrc0
          have hdes1 : desiredHostProfile db r0.hostUUID r0.profileID = true := by
            rw [desiredHostProfile_iff]
            exact ⟨p, hpm, hk.2.symm, h, hhm, hk.1.symm, hdes0⟩
          rw [hdes1] at hrc0
          cases hrc0.1
      have hcs : ∀ r0, lookupRow db.hostProfiles h.uuid p.profileID = some r0 →
          r0.checksum = p.checksum :=
        fun r0 h0 => hstale _ hplmem r0 h0
      obtain ⟨r, hlook, hP⟩ := lookup_fold_upsert_key (recordPayloads db) db.hostProfiles
        (recordPayload MDMAppleOperationType.install (toInstallPayload p h))
        hqmem huniq hcs
      have hfin : installCond (recordedDB db) p h = false := by
        unfold installCond
        rw [show lookupRow (recordedDB db).hostProfiles h.uuid p.profileID = some r
             from hlook]
        have h1 : r.checksum = p.checksum := hP.2.2
        have h2 : r.operationType = MDMAppleOperationType.install := hP.2.1
        have h3 : r.status = some MDMAppleDeliveryStatus.pending := hP.1
        simp [h1, h2, h3]
      rw [hfin] at hic
      cases hic
    · have huntouched : ∀ q' ∈ recordPayloads db,
          ¬(q'.hostUUID = h.uuid ∧ q'.profileID = p.profileID) := by
        intro q' hq' hk
        rcases List.mem_append.mp hq' with hq1 | hq1
        · obtain ⟨pl', hpl', rfl⟩ := List.mem_map.mp hq1
          obtain ⟨p', hp', h', hh', hcond', hpl'eq⟩ :=
            (mem_listToInstall_iff_raw db pl').mp hpl'
          subst hpl'eq
          have hpe : p' = p := profile_eq_of_wf hwf hp' hpm hk.2
          have hhe : h' = h := host_eq_of_wf hwf hh' hhm hk.1
          rw [hpe, hhe] at hcond'
          simp only [Bool.and_eq_true] at hcond'
          exact hic0 hcond'.2
        · obtain ⟨pl', hpl', rfl⟩ := List.mem_map.mp hq1
          obtain ⟨r0, hr0, hrc0, hpl'eq⟩ := (mem_listToRemove_iff_raw db pl').mp hpl'
          subst hpl'eq
          unfold removeCond at hrc0
          simp only [Bool.and_eq_true, Bool.not_eq_true'] at hrc0
          have hdes1 : desiredHostProfile db r0.hostUUID r0.profileID = true := by
            rw [desiredHostProfile_iff]
            exact ⟨p, hpm, hk.2.symm, h, hhm, hk.1.symm, hdes0⟩
          rw [hdes1] at hrc0
          cases hrc0.1
      have hlook := lookup_fold_upsert_other (recordPayloads db) db.hostProfiles
        h.uuid p.profileID huntouched
      have hsame : installCond (recordedDB db) p h = installCond db p h := by
        unfold installCond
        rw [show lookupRow (recordedDB db).hostProfiles h.uuid p.profileID =
              lookupRow db.hostProfiles h.uuid p.profileID from hlook]
      rw [hsame] at hic
      exact hic0 hic
  · rw [List.eq_nil_iff_forall_not_mem]
    intro pl hpl
    rw [mem_listToRemove_iff_raw] at hpl
    obtain ⟨r', hr', hrc, hpleq⟩ := hpl
    rcases mem_fold_upsert (recordPayloads db) db.hostProfiles r' hr' with
      ⟨hmem, hnok⟩ | ⟨q, hq, hkey⟩
    · have hrc0 : removeCond db r' = true := hrc
      have hqmem : recordPayload MDMAppleOperationType.remove (rowPayload r') ∈
          recordPayloads db :=
        List.mem_append_right _ (List.mem_map_of_mem _
          ((mem_listToRemove_iff_raw db _).mpr ⟨r', hmem, hrc0, rfl⟩))
      exact hnok _ hqmem ⟨rfl, rfl⟩
    · rcases List.mem_append.mp hq with hq1 | hq1
      · obtain ⟨pl', hpl', rfl⟩ := List.mem_map.mp hq1
        obtain ⟨p', hp', h', hh', hcond', hpl'eq⟩ :=
          (mem_listToInstall_iff_raw db pl').mp hpl'
        subst hpl'eq
        have hrc0 : removeCond db r' = true := hrc
        unfold removeCond at hrc0
        simp only [Bool.and_eq_true, Bool.not_eq_true'] at hrc0
        have hdes1 : desiredHostProfile db r'.hostUUID r'.profileID = true := by
          rw [desiredHostProfile_iff]
          refine ⟨p', hp', ?_, h', hh', ?_, ?_⟩
          · exact hkey.2.1.symm
          · exact hkey.1.symm
          · simp only [Bool.and_eq_true] at hcond'
            exact hcond'.1
        rw [hdes1] at hrc0
        cases hrc0.1
      · obtain ⟨pl', hpl', rfl⟩ := List.mem_map.mp hq1
        have hrc0 : removeCond db r' = true := hrc
        unfold removeCond at hrc0
        simp only [Bool.and_eq_true, Bool.not_eq_true', Bool.and_eq_false_iff,
          beq_eq_false_iff_ne, Bool.not_eq_false'] at hrc0
        have hop : r'.operationType = MDMAppleOperationType.remove := hkey.2.2.2
        have hst : r'.status = some MDMAppleDeliveryStatus.pending := hkey.2.2.1
        rcases hrc0.2 with h1 | h1
        · exact h1 hop
        · have h2 : r'.status = none := by simpa using h1
          rw [h2] at hst
          cases hst

end FleetMDM

namespace FleetMDM

theorem C8_witness :
    ListMDMAppleProfilesToInstall (recordPass sampleDB) = [] ∧
    ListMDMAppleProfilesToRemove (recordPass sampleDB) = [] :=
  C8_recordPass_idempotent sampleDB (by decide)
    (fun _ _ r hr => Option.noConfusion hr)

end FleetMDM
